import Mathlib

/-!
# YogaCustomerApp: reconciliation, cart and booking submission

A shallow embedding of `src/utils/dataProcessor.js`, `src/contexts/CartContext.js`,
`validateEmail`, `bookingSummary` and `handleBookingSubmit` of
`src/screens/CheckoutScreen.js`, `detailedCartItems` and `totalPrice` of
`src/screens/CartScreen.js`, `loadBookings` of `src/screens/MyBookingsScreen.js`,
`loadData` of `src/contexts/DataContext.js`, and `fetchAllData` and `submitBooking` of
`src/services/firebaseService.js`.

* JavaScript values that the record store can deliver are JSON values (`Val`).
  A property read that finds nothing (`undefined`) is `none : Option Val`.
* JSON numbers are modelled as integers. The result of `parseInt` is a double: the integer
  spelled by the digits is rounded to the nearest double (`roundToDouble`), so it is exact
  only below `2 ^ 53`; the integer `2 ^ 1024` stands for `Infinity`.
* The four top-level keys of the bundle hold arrays or are missing (`undefined`); a value of
  another kind under such a key has no `map` method and is outside the model.
* Objects are association lists in property creation order; `{...x, k: v}` is
  `setField k v (spread x)`.
* A JavaScript `Map` is an association list in insertion order.
* `new Date()` is an explicit argument holding the local calendar components.
* An uncaught `TypeError` is `Except.error`. The only call that can throw outside a `try`
  is the `replace` call in the sort comparator.
-/

namespace YogaCustomerApp

/-! ## Values -/

/-- JSON values, as returned by `snapshot.val()`. -/
inductive Val where
  | null : Val
  | bool (b : Bool) : Val
  | num (n : Int) : Val
  | str (s : String) : Val
  | arr (items : List Val) : Val
  | obj (fields : List (String × Val)) : Val

mutual
/-- Decidable equality of values, by structural recursion. -/
def Val.decEq : (a b : Val) → Decidable (a = b)
  | .null, .null => isTrue rfl
  | .bool x, .bool y => if h : x = y then isTrue (by rw [h]) else isFalse (by intro e; cases e; exact h rfl)
  | .num x, .num y => if h : x = y then isTrue (by rw [h]) else isFalse (by intro e; cases e; exact h rfl)
  | .str x, .str y => if h : x = y then isTrue (by rw [h]) else isFalse (by intro e; cases e; exact h rfl)
  | .arr x, .arr y =>
    match Val.decEqList x y with
    | isTrue h => isTrue (by rw [h])
    | isFalse h => isFalse (by intro e; cases e; exact h rfl)
  | .obj x, .obj y =>
    match Val.decEqFields x y with
    | isTrue h => isTrue (by rw [h])
    | isFalse h => isFalse (by intro e; cases e; exact h rfl)
  | .null, .bool _ | .null, .num _ | .null, .str _ | .null, .arr _ | .null, .obj _
  | .bool _, .null | .bool _, .num _ | .bool _, .str _ | .bool _, .arr _ | .bool _, .obj _
  | .num _, .null | .num _, .bool _ | .num _, .str _ | .num _, .arr _ | .num _, .obj _
  | .str _, .null | .str _, .bool _ | .str _, .num _ | .str _, .arr _ | .str _, .obj _
  | .arr _, .null | .arr _, .bool _ | .arr _, .num _ | .arr _, .str _ | .arr _, .obj _
  | .obj _, .null | .obj _, .bool _ | .obj _, .num _ | .obj _, .str _ | .obj _, .arr _ =>
    isFalse (by intro e; cases e)
/-- Decidable equality of arrays. -/
def Val.decEqList : (a b : List Val) → Decidable (a = b)
  | [], [] => isTrue rfl
  | [], _ :: _ => isFalse (by intro e; cases e)
  | _ :: _, [] => isFalse (by intro e; cases e)
  | x :: xs, y :: ys =>
    match Val.decEq x y, Val.decEqList xs ys with
    | isTrue h1, isTrue h2 => isTrue (by rw [h1, h2])
    | isFalse h, _ => isFalse (by intro e; cases e; exact h rfl)
    | _, isFalse h => isFalse (by intro e; cases e; exact h rfl)
/-- Decidable equality of field lists. -/
def Val.decEqFields : (a b : List (String × Val)) → Decidable (a = b)
  | [], [] => isTrue rfl
  | [], _ :: _ => isFalse (by intro e; cases e)
  | _ :: _, [] => isFalse (by intro e; cases e)
  | (k1, x) :: xs, (k2, y) :: ys =>
    if hk : k1 = k2 then
      match Val.decEq x y, Val.decEqFields xs ys with
      | isTrue h1, isTrue h2 => isTrue (by rw [hk, h1, h2])
      | isFalse h, _ => isFalse (by intro e; cases e; exact h rfl)
      | _, isFalse h => isFalse (by intro e; cases e; exact h rfl)
    else isFalse (by intro e; cases e; exact hk rfl)
end

instance : DecidableEq Val := Val.decEq

/-- The fields of a JavaScript object, in creation order. -/
abbrev Obj := List (String × Val)

/-- An uncaught JavaScript exception. -/
inductive JSError where
  | typeError : JSError
  deriving DecidableEq, Repr

namespace Val

/-- JavaScript truthiness (`ToBoolean`). -/
def truthy : Val → Bool
  | null => false
  | bool b => b
  | num n => n != 0
  | str s => s != ""
  | arr _ => true
  | obj _ => true

/-- Truthiness of the result of a property read; `undefined` is falsy. -/
def truthyOpt : Option Val → Bool
  | none => false
  | some v => truthy v

end Val

open Val

/-- Own-property lookup in an object: the first field named `k`. -/
def getField (k : String) : Obj → Option Val
  | [] => none
  | (k1, v) :: rest => if k1 = k then some v else getField k rest

/-- Property assignment in an object literal: overwrite in place, or append. -/
def setField (k : String) (v : Val) : Obj → Obj
  | [] => [(k, v)]
  | (k1, v1) :: rest => if k1 = k then (k1, v) :: rest else (k1, v1) :: setField k v rest

/-- Decimal digit as a character. -/
def digitChar (d : Nat) : Char := Char.ofNat (48 + d)

/-- Decimal rendering of a natural number with `fuel` digits at most. -/
def natDigits : Nat → Nat → List Char
  | 0, _ => []
  | fuel + 1, n => if n < 10 then [digitChar n] else natDigits fuel (n / 10) ++ [digitChar (n % 10)]

/-- JavaScript `String(n)` for a non-negative integer `n`. -/
def numberToString (n : Nat) : List Char := natDigits (n + 1) n

/-- The own enumerable properties copied by the spread `{...x}`. -/
def spread : Val → Obj
  | obj fs => fs
  | arr xs => xs.enum.map (fun p => (String.mk (numberToString p.1), p.2))
  | str s => s.data.enum.map (fun p => (String.mk (numberToString p.1), str (String.mk [p.2])))
  | _ => []

/-- Property read `x.k` on a value produced by the pass (only objects carry data fields). -/
def getProp (x : Val) (k : String) : Option Val :=
  match x with
  | obj fs => getField k fs
  | _ => none

/-! ## Strings and `parseInt` -/

/-- The code points of `WhiteSpace` and `LineTerminator`, skipped by `parseInt`. -/
def isJSWhitespace (c : Char) : Bool :=
  let n := c.toNat
  n = 9 || n = 10 || n = 11 || n = 12 || n = 13 || n = 32 || n = 160 || n = 5760 ||
    (8192 ≤ n && n ≤ 8202) || n = 8232 || n = 8233 || n = 8239 || n = 8287 || n = 12288 ||
    n = 65279

/-- A decimal digit `0`..`9`. -/
def isDigit (c : Char) : Bool := 48 ≤ c.toNat && c.toNat ≤ 57

/-- The value of a decimal digit. -/
def digitVal (c : Char) : Nat := c.toNat - 48

/-- The value of a run of decimal digits, most significant first. -/
def digitsToNat (ds : List Char) : Nat := ds.foldl (fun acc c => 10 * acc + digitVal c) 0

/-- The optional sign read by `parseInt`, and the rest of the input. -/
def stripSign : List Char → Int × List Char
  | [] => (1, [])
  | c :: r => if c = '-' then (-1, r) else if c = '+' then (1, r) else (1, c :: r)

/-- The integer `2 ^ 53`: every integer below it is a double, and above it the doubles are
spaced two or more apart. -/
def twoPow53 : Nat := 9007199254740992

/-- The integer `2 ^ 1024`, the least power of two that is not a finite double. It stands for
`Infinity`: it lies above every finite double, and the difference `Infinity - Infinity` is
`NaN`, which `sort` reads as `0`, as the difference of two equal keys. -/
def doubleInfinity : Nat :=
  179769313486231590772930519078902473361797697894230657273430081157732675805500963132708477322407536021120113879871393357658789768814416622492847430639474124377767893424865485276302219601246094119453082952085005768838150682342462881473913110540827237163350510684586298239947245938479716304835356329624224137216

/-- The number of times `n` is halved before it drops below `2 ^ 53`: the binary exponent of
the unit in the last place of the double nearest to `n`. -/
def halvings : Nat → Nat → Nat
  | 0, _ => 0
  | fuel + 1, n => if n < twoPow53 then 0 else halvings fuel (n / 2) + 1

/-- The Number value for a non-negative integer: the nearest double, a tie going to the even
significand, and `Infinity` from `2 ^ 1024` on. The significand `q` keeps the leading 53 bits
of `n`, and `r` is the part of `n` that the double drops. -/
def roundToDouble (n : Nat) : Nat :=
  if n < twoPow53 then n
  else
    let e := halvings n n
    let q := n / 2 ^ e
    let r := n % 2 ^ e
    let up : Bool := decide (2 ^ e < 2 * r) || (decide (2 * r = 2 ^ e) && decide (q % 2 = 1))
    let rounded := (if up then q + 1 else q) * 2 ^ e
    if doubleInfinity ≤ rounded then doubleInfinity else rounded

/-- JavaScript `parseInt(s, 10)`; `none` is `NaN`. The result is a Number, that is a double:
the integer spelled by the digits is rounded by `roundToDouble`, so it is exact only below
`2 ^ 53`, and `2 ^ 1024` stands for `Infinity`. -/
def parseInt (s : List Char) : Option Int :=
  let signed := stripSign (s.dropWhile isJSWhitespace)
  let ds := signed.2.takeWhile isDigit
  if ds.isEmpty then none else some (signed.1 * (roundToDouble (digitsToNat ds) : Int))

/-- Removal of every hyphen, the `replace` call with the global hyphen pattern. -/
def removeHyphens (s : List Char) : List Char := s.filter (fun c => c != '-')

/-- `s.padStart(2, '0')`. -/
def padStart2 (s : List Char) : List Char := List.replicate (2 - s.length) '0' ++ s

/-! ## The reference day -/

/-- The local calendar components read from `new Date()`. -/
structure JSDate where
  /-- `getFullYear()` -/
  fullYear : Nat
  /-- `getMonth()`, zero-based -/
  month : Nat
  /-- `getDate()` -/
  date : Nat
  deriving DecidableEq, Repr

/-- Lines 22-26: today as a `YYYYMMDD` number. -/
def todayNum (today : JSDate) : Option Int :=
  let yyyy := numberToString today.fullYear
  let mm := padStart2 (numberToString (today.month + 1))
  let dd := padStart2 (numberToString today.date)
  parseInt (yyyy ++ mm ++ dd)

/-- The year, month and day of a well-formed `YYYY-MM-DD` string: four, two and two decimal
digits separated by hyphens; `none` for any other string. -/
def parseIsoDate (s : String) : Option (Nat × Nat × Nat) :=
  match s.data with
  | [y1, y2, y3, y4, h1, m1, m2, h2, d1, d2] =>
    if h1 = '-' ∧ h2 = '-' ∧ [y1, y2, y3, y4, m1, m2, d1, d2].all isDigit = true then
      some (digitsToNat [y1, y2, y3, y4], digitsToNat [m1, m2], digitsToNat [d1, d2])
    else none
  | _ => none

/-- Calendar order on (year, month, day): strictly earlier. -/
def calendarLT (a b : Nat × Nat × Nat) : Prop :=
  a.1 < b.1 ∨ (a.1 = b.1 ∧ (a.2.1 < b.2.1 ∨ (a.2.1 = b.2.1 ∧ a.2.2 < b.2.2)))

instance (a b : Nat × Nat × Nat) : Decidable (calendarLT a b) := by
  unfold calendarLT
  infer_instance

/-- The year, one-based month and day of the reference day. -/
def JSDate.ymd (today : JSDate) : Nat × Nat × Nat := (today.fullYear, today.month + 1, today.date)

/-- A reference day that a clock can deliver: month index 0..11 and day 1..31. -/
def JSDate.Valid (today : JSDate) : Prop := today.month ≤ 11 ∧ 1 ≤ today.date ∧ today.date ≤ 31

instance (today : JSDate) : Decidable today.Valid := by
  unfold JSDate.Valid
  infer_instance

/-! ## `processFirebaseData` -/

/-- The bundle handed to `processFirebaseData`; a missing key is `none`. -/
structure RawData where
  classes : Option (List Val) := none
  classInstances : Option (List Val) := none
  classTypes : Option (List Val) := none
  teachers : Option (List Val) := none

/-- A value or `undefined`. -/
abbrev JSVal := Option Val

/-- Strict equality `a === b` (also `SameValueZero`, JSON has neither `NaN` nor `-0`).
Primitives compare by value. Objects and arrays compare by reference; every use below has a
position number on one side, so two containers are never the same reference. -/
def strictEq (a b : JSVal) : Bool :=
  match a, b with
  | none, none => true
  | some .null, some .null => true
  | some (.bool x), some (.bool y) => x == y
  | some (.num x), some (.num y) => x == y
  | some (.str x), some (.str y) => x == y
  | _, _ => false

/-- A JavaScript `Map`, entries in insertion order. -/
abbrev JSMap := List (JSVal × Val)

/-- `Map.prototype.set`: overwrite the value of an existing key in place, or append. -/
def mapSet (k : JSVal) (v : Val) : JSMap → JSMap
  | [] => [(k, v)]
  | (k1, v1) :: rest => if strictEq k1 k then (k1, v) :: rest else (k1, v1) :: mapSet k v rest

/-- `new Map(entries)`. -/
def newMap (entries : List (JSVal × Val)) : JSMap :=
  entries.foldl (fun m e => mapSet e.1 e.2 m) []

/-- `Map.prototype.get`; `none` is `undefined`. -/
def mapGet (m : JSMap) (k : JSVal) : JSVal :=
  match m with
  | [] => none
  | (k1, v) :: rest => if strictEq k1 k then some v else mapGet rest k

/-- `x || fallback`. -/
def orElse (x : JSVal) (fallback : Val) : Val :=
  match x with
  | some v => if truthy v then v else fallback
  | none => fallback

/-- The object literal `{ ...x, id: index }`. -/
def withId (index : Nat) (x : Val) : Val := obj (setField "id" (num index) (spread x))

/-- Lines 17-19 and 31: `.map((x, index) => x ? { ...x, id: index } : null)`. -/
def withIds (raw : List Val) : List Val :=
  raw.enum.map (fun p => if truthy p.2 then withId p.1 p.2 else null)

/-- Lines 17-19: the mapped array after `.filter(Boolean)`. -/
def cleanAndIndex (raw : List Val) : List Val := (withIds raw).filter truthy

/-- Lines 32-45: the predicate of the date filter. A date that is not a string has no
`replace` method: the call throws a `TypeError`, which the `catch` turns into `false`. -/
def keepInstance (todayN : Option Int) (inst : Val) : Bool :=
  if !truthy inst || !truthyOpt (getProp inst "date") then false
  else
    match getProp inst "date" with
    | some (str s) =>
      match parseInt (removeHyphens s.data), todayN with
      | some instNum, some t => decide (instNum ≥ t)
      | _, _ => false
    | _ => false

/-- Line 71: the teacher fallback. -/
def unknownTeacher : Val := obj [("name", str "Unknown Teacher"), ("basicInfo", str "")]

/-- Line 83: the class type fallback. -/
def unknownType : Val := obj [("name", str "Unknown Type"), ("description", str "")]

/-- Lines 66-73: an instance with its teacher embedded. -/
def withTeacher (teacherMap : JSMap) (inst : Val) : Val :=
  obj (setField "teacher" (orElse (mapGet teacherMap (getProp inst "teacherId")) unknownTeacher)
    (spread inst))

/-- Lines 76-77: the sort key, `parseInt` of the hyphen-free date with `NaN` replaced by `0`
(`|| 0`), when `x.date` is a string. The key is the Number that `parseInt` returns, a double:
two dates whose digits differ only beyond the precision of a double have the same key. -/
def dateNum (x : Val) : Int :=
  match getProp x "date" with
  | some (str s) =>
    match parseInt (removeHyphens s.data) with
    | some n => n
    | none => 0
  | _ => 0

/-- The `YYYYMMDD` integer of `x.date` as the code reads it: the Number that `parseInt` returns
for the hyphen-free date string; `none` when the date is not a string or does not start with
an integer. For a well-formed `YYYY-MM-DD` date it is `Y * 10000 + M * 100 + D`. -/
def dateInteger (x : Val) : Option Int :=
  match getProp x "date" with
  | some (str s) => parseInt (removeHyphens s.data)
  | _ => none

/-- Whether `x.date.replace(...)` can be called at all. -/
def hasStringDate (x : Val) : Bool :=
  match getProp x "date" with
  | some (str _) => true
  | _ => false

/-- The order induced by the comparator `dateANum - dateBNum`, a difference of two doubles:
it is negative, zero or positive as the first key is below, equal to or above the second
(`Infinity - Infinity` is `NaN`, which `sort` reads as `0`). -/
def dateLE (a b : Val) : Prop := dateNum a ≤ dateNum b

instance : DecidableRel dateLE := fun a b => inferInstanceAs (Decidable (dateNum a ≤ dateNum b))

/-- Lines 75-79: `.sort((a, b) => dateANum - dateBNum)`. The sort is stable. The comparator is
not called on a list shorter than two; on a longer list every element is compared at least
once, and the comparator throws a `TypeError` on an element whose date is not a string. -/
def sortByDate (l : List Val) : Except JSError (List Val) :=
  if l.length < 2 then .ok l
  else if l.all hasStringDate then .ok (l.insertionSort dateLE)
  else .error .typeError

/-- `Array.prototype.map` with a callback that may throw. -/
def mapExcept {α β : Type} (f : α → Except JSError β) : List α → Except JSError (List β)
  | [] => .ok []
  | a :: rest =>
    match f a with
    | .error e => .error e
    | .ok b =>
      match mapExcept f rest with
      | .error e => .error e
      | .ok bs => .ok (b :: bs)

/-- Lines 64-73: the future instances of one class, teacher embedded, before the sort. -/
def instancesBeforeSort (futureClassInstances : List Val) (teacherMap : JSMap) (cls : Val) :
    List Val :=
  (futureClassInstances.filter
      (fun inst => strictEq (getProp inst "classId") (getProp cls "id"))).map
    (withTeacher teacherMap)

/-- Lines 64-79: the future instances of one class, teacher embedded, sorted by date. -/
def instancesOf (futureClassInstances : List Val) (teacherMap : JSMap) (cls : Val) :
    Except JSError (List Val) :=
  sortByDate (instancesBeforeSort futureClassInstances teacherMap cls)

/-- Line 85: `Array.isArray(cls.daysOfWeek) ? cls.daysOfWeek : []`. -/
def daysOfWeekOf (cls : Val) : Val :=
  match getProp cls "daysOfWeek" with
  | some (arr days) => arr days
  | _ => arr []

/-- Lines 61 and 81-86: the object literal returned for one class, given its instances. -/
def assembleClass (classTypeMap : JSMap) (cls : Val) (instances : List Val) : Val :=
  let classType := mapGet classTypeMap (getProp cls "classTypeId")
  obj (setField "daysOfWeek" (daysOfWeekOf cls)
    (setField "instances" (arr instances)
      (setField "classType" (orElse classType unknownType) (spread cls))))

/-- Lines 59-87: the callback building one processed class. -/
def processClass (classTypeMap teacherMap : JSMap) (futureClassInstances : List Val)
    (cls : Val) : Except JSError Val :=
  match instancesOf futureClassInstances teacherMap cls with
  | .error e => .error e
  | .ok instances => .ok (assembleClass classTypeMap cls instances)

/-- The map `m` indexes exactly the non-null records of the raw array `raw`, by position in
the full array: a record at position `i` is stored under key `i` with its `id` set to `i`, a
`null` or missing position is no key, and every key found is such a position. -/
def IndexesByPosition (raw : List Val) (m : JSMap) : Prop :=
  (∀ (i : Nat) (o : Obj), raw[i]? = some (obj o) →
      mapGet m (some (num (i : Int))) = some (obj (setField "id" (num (i : Int)) o))) ∧
  (∀ i : Nat, raw[i]? = some null ∨ raw[i]? = none → mapGet m (some (num (i : Int))) = none) ∧
  (∀ (k : JSVal) (v : Val), mapGet m k = some v →
      ∃ (i : Nat) (r : Val), k = some (num (i : Int)) ∧ raw[i]? = some r ∧ r ≠ null ∧
        v = withId i r ∧ getProp v "id" = some (num (i : Int)))

/-- The value returned by `processFirebaseData`. -/
structure IndexedModel where
  processedClasses : List Val
  classMap : JSMap
  classInstanceMap : JSMap
  teacherMap : JSMap
  classTypeMap : JSMap

/-- Lines 30-45: instances with ids, filtered to today and later. -/
def futureClassInstances (rawClassInstances : List Val) (today : JSDate) : List Val :=
  (withIds rawClassInstances).filter (keepInstance (todayNum today))

/-- Lines 50-54: `new Map(xs.map(x => [x.id, x]))`. -/
def mapById (xs : List Val) : JSMap := newMap (xs.map (fun x => (getProp x "id", x)))

/-- The function `processFirebaseData` of `src/utils/dataProcessor.js`; the reading of
`new Date()` is the argument `today`. -/
def processFirebaseData (rawData : RawData) (today : JSDate) : Except JSError IndexedModel :=
  let rawClasses := rawData.classes.getD []
  let rawClassInstances := rawData.classInstances.getD []
  let rawClassTypes := rawData.classTypes.getD []
  let rawTeachers := rawData.teachers.getD []
  let classes := cleanAndIndex rawClasses
  let classTypes := cleanAndIndex rawClassTypes
  let teachers := cleanAndIndex rawTeachers
  let future := futureClassInstances rawClassInstances today
  let classTypeMap := mapById classTypes
  let teacherMap := mapById teachers
  let classMap := mapById classes
  let classInstanceMap := mapById future
  match mapExcept (processClass classTypeMap teacherMap future) classes with
  | .error e => .error e
  | .ok processedClasses =>
    .ok { processedClasses := processedClasses
          classMap := classMap
          classInstanceMap := classInstanceMap
          teacherMap := teacherMap
          classTypeMap := classTypeMap }

/-! ## The cart: `src/contexts/CartContext.js`

The cart state is the array `cartItems` held by `useState`. Every caller passes the `id` of
a class instance, a number, so an identifier is an integer here; on numbers `includes` and
`!==` are equality and its negation. A mutation is the updater handed to `setCartItems`; a
query reads the state of the render that follows. -/

/-- An instance identifier: the position-derived `id` of a class instance. -/
abbrev InstanceId := Int

/-- A call `Alert.alert(title, message)`. -/
structure Alert where
  title : String
  message : String
  deriving DecidableEq, Repr

/-- Lines 16-25: the updater of `addToCart`, with the alert it raises. -/
def addToCart (instanceId : InstanceId) (prevItems : List InstanceId) :
    List InstanceId × Alert :=
  if prevItems.contains instanceId then
    (prevItems, ⟨"Already in Cart", "This class session is already in your cart."⟩)
  else
    (prevItems ++ [instanceId], ⟨"Added to Cart", "Class session added successfully."⟩)

/-- Lines 27-30: the updater of `removeFromCart`, with the alert that follows it. -/
def removeFromCart (instanceId : InstanceId) (prevItems : List InstanceId) :
    List InstanceId × Alert :=
  (prevItems.filter (fun id => id != instanceId),
    ⟨"Removed", "Class session removed from your cart."⟩)

/-- Lines 32-34: `setCartItems([])`. -/
def clearCart (_prevItems : List InstanceId) : List InstanceId := []

/-- Lines 36-38: `cartItems.includes(instanceId)`. -/
def isInCart (cartItems : List InstanceId) (instanceId : InstanceId) : Bool :=
  cartItems.contains instanceId

/-- A mutation requested from the cart provider. -/
inductive CartOp where
  | add (instanceId : InstanceId)
  | remove (instanceId : InstanceId)
  | clear
  deriving DecidableEq, Repr

/-- The cart list after one mutation. -/
def applyOp (cartItems : List InstanceId) : CartOp → List InstanceId
  | .add x => (addToCart x cartItems).1
  | .remove x => (removeFromCart x cartItems).1
  | .clear => clearCart cartItems

/-- The cart list after a sequence of mutations, starting from `cartItems`. -/
def runOpsFrom (cartItems : List InstanceId) (ops : List CartOp) : List InstanceId :=
  ops.foldl applyOp cartItems

/-- The cart list after a sequence of mutations, starting from `useState([])`. -/
def runOps (ops : List CartOp) : List InstanceId := runOpsFrom [] ops

/-! ## Email validation: `validateEmail` of `src/screens/CheckoutScreen.js` -/

/-- An item of a regular expression made of single characters and `+`-repeated character
classes. -/
inductive RegexItem where
  | char (c : Char)
  | plus (cls : Char → Bool)

/-- The method `RegExp.prototype.test` for a pattern `^ items $` without flags: whether the whole
input is matched by the items in sequence. -/
def regexTest : List RegexItem → List Char → Bool
  | [], [] => true
  | [], _ :: _ => false
  | _ :: _, [] => false
  | .char c :: rest, x :: xs => x == c && regexTest rest xs
  | .plus cls :: rest, x :: xs =>
    cls x && (regexTest rest xs || regexTest (.plus cls :: rest) xs)

/-- The class `[^\s@]`. -/
def notSpaceOrAt (c : Char) : Bool := !isJSWhitespace c && c != '@'

/-- Line 64: the pattern `^[^\s@]+@[^\s@]+\.[^\s@]+$`. -/
def emailRegex : List RegexItem :=
  [.plus notSpaceOrAt, .char '@', .plus notSpaceOrAt, .char '.', .plus notSpaceOrAt]

/-- Lines 62-66: `validateEmail`. The pattern has no flag: `^` and `$` are the two ends of
the input, and the class tests one code unit at a time, which for this class agrees with
testing one character at a time. -/
def validateEmail (text : String) : Bool := regexTest emailRegex text.data

/-- The shape of an accepted email in words: no whitespace character, exactly one `@`, a
non-empty local part before it, and after it a domain part holding a `.` that is neither
its first nor its last character. -/
def EmailShape (s : List Char) : Prop :=
  (∀ c ∈ s, isJSWhitespace c = false) ∧ s.count '@' = 1 ∧
    ∃ localPart domain : List Char, s = localPart ++ '@' :: domain ∧ localPart ≠ [] ∧
      ∃ i : Nat, 0 < i ∧ i + 1 < domain.length ∧ domain[i]? = some '.'

/-! ## Booking submission: `submitBooking` of `src/services/firebaseService.js` and
`handleBookingSubmit` of `src/screens/CheckoutScreen.js`

The collaborators are the local key-value store (`AsyncStorage`) and the record store
(`push`, `set`). Their answers are arguments; what the code does to them is recorded as a
list of effects in program order. A thrown or rejected value is its message. -/

/-- Line 17 of `CheckoutScreen.js`. -/
def EMAIL_STORAGE_KEY : String := "@YogaApp:userEmail"

/-- An action of the submission flow that is visible outside it. -/
inductive Effect where
  /-- The call `Alert.alert(title, message, ...)`. -/
  | alert (title message : String)
  /-- The call `navigation.goBack()`. -/
  | goBack
  /-- The call `setIsLoading(b)`. -/
  | setIsLoading (b : Bool)
  /-- The call `AsyncStorage.setItem(key, value)`. -/
  | storageSetItem (key value : String)
  /-- The call `set(newBookingRef, record)`, with the key of `newBookingRef`. -/
  | storeSet (key : String) (record : Val)
  /-- The call `clearCart()`. -/
  | clearCart
  /-- The call `console.log(label, value)`. -/
  | consoleLog (label value : String)
  /-- The call `console.error(label, error)`. -/
  | consoleError (label error : String)
  deriving DecidableEq

/-- Whether the effect is a call of the local key-value store or of the record store. -/
def Effect.isStoreCall : Effect → Bool
  | .storageSetItem _ _ => true
  | .storeSet _ _ => true
  | _ => false

/-- Whether the effect is a write to the record store. -/
def Effect.isStoreSet : Effect → Bool
  | .storeSet _ _ => true
  | _ => false

/-- The answers of the record store: the key generated by `push` and, when the `set` is not
acknowledged, the error it rejects with. -/
structure StoreEnv where
  pushKey : String
  setRejects : Option String

/-- The placeholder returned by `serverTimestamp()`. -/
def serverTimestamp : Val := obj [(".sv", str "timestamp")]

/-- Lines 50-54 of `firebaseService.js`: the record handed to `set`. -/
def bookingRecord (email : String) (instanceIds : List InstanceId) : Val :=
  obj [("userEmail", str email), ("bookedInstanceIds", arr (instanceIds.map num)),
    ("bookingTimestamp", serverTimestamp)]

/-- Lines 43-61 of `firebaseService.js`: `submitBooking`. The identifier list may be absent
(`none`). The result is the key of the new booking or the thrown error. -/
def submitBooking (env : StoreEnv) (email : String) (instanceIds : Option (List InstanceId)) :
    List Effect × Except String String :=
  match instanceIds with
  | none => ([], .error "Email and class instance IDs are required for booking.")
  | some ids =>
    if email = "" ∨ ids.length = 0 then
      ([], .error "Email and class instance IDs are required for booking.")
    else
      match env.setRejects with
      | none =>
        ([.storeSet env.pushKey (bookingRecord email ids),
          .consoleLog "Booking successful for:" email], .ok env.pushKey)
      | some err =>
        ([.storeSet env.pushKey (bookingRecord email ids),
          .consoleError "Firebase submitBooking Error:" err], .error err)

/-- What surrounds one run of `handleBookingSubmit`: the answer of `AsyncStorage.setItem`
(`none` when it resolves), the record store, and the cart mutations that other handlers
perform while the run is suspended at its first and at its second `await`. -/
structure CheckoutEnv where
  storageRejects : Option String
  store : StoreEnv
  duringStorage : List CartOp
  duringSubmit : List CartOp

/-- The effects of one run of `handleBookingSubmit`, and the provider's cart list when the
run has finished. -/
structure CheckoutResult where
  effects : List Effect
  cartItems : List InstanceId

/-- Lines 91-94: the message of the confirmation alert. -/
def confirmedMessage (count : Nat) : String :=
  "Your " ++ String.mk (numberToString count) ++
    " class(es) have been booked. Check 'My Bookings' to see your schedule."

/-- Lines 68-108 of `CheckoutScreen.js`: `handleBookingSubmit`. The constants `email` and
`cartItems` are those of the render that created the handler, `cartItems` being the
provider's list at that time; `count` is `bookingSummary.count`. -/
def handleBookingSubmit (env : CheckoutEnv) (count : Nat) (email : String)
    (cartItems : List InstanceId) : CheckoutResult :=
  if !validateEmail email then
    { effects := [.alert "Invalid Email" "Please enter a valid email address."]
      cartItems := cartItems }
  else if cartItems.length = 0 then
    { effects := [.alert "Empty Cart" "Your cart is empty.", .goBack]
      cartItems := cartItems }
  else
    match env.storageRejects with
    | some err =>
      { effects := [.setIsLoading true, .storageSetItem EMAIL_STORAGE_KEY email,
          .consoleError "Booking failed:" err,
          .alert "Booking Failed" "Something went wrong. Please try again.",
          .setIsLoading false]
        cartItems := runOpsFrom cartItems env.duringStorage }
    | none =>
      let submitted := submitBooking env.store email (some cartItems)
      let cartAfter := runOpsFrom (runOpsFrom cartItems env.duringStorage) env.duringSubmit
      match submitted.2 with
      | .error err =>
        { effects := [.setIsLoading true, .storageSetItem EMAIL_STORAGE_KEY email] ++
            submitted.1 ++
            [.consoleError "Booking failed:" err,
              .alert "Booking Failed" "Something went wrong. Please try again.",
              .setIsLoading false]
          cartItems := cartAfter }
      | .ok _ =>
        { effects := [.setIsLoading true, .storageSetItem EMAIL_STORAGE_KEY email] ++
            submitted.1 ++
            [.clearCart, .alert "Booking Confirmed!" (confirmedMessage count),
              .setIsLoading false]
          cartItems := clearCart cartAfter }

/-! ## Reading the model: `CartScreen.js`, `CheckoutScreen.js`, `MyBookingsScreen.js`

The screens read `classMap`, `classInstanceMap` and `teacherMap` of the provider. A cart
identifier `id` is looked up as the number `id`. -/

/-- An object literal whose property values may be `undefined`. A property that holds
`undefined` reads the same as a missing one, and is left out. -/
def mkObj (fields : List (String × JSVal)) : Obj :=
  fields.filterMap (fun p => p.2.map (fun v => (p.1, v)))

/-- Optional chaining `x?.k`. -/
def getPropOpt (x : JSVal) (k : String) : JSVal :=
  match x with
  | some v => getProp v k
  | none => none

/-- Lines 22-41 of `CartScreen.js`: the callback building the display item of one cart
member; `null` when the instance or its class is not found. -/
def cartItemDetail (m : IndexedModel) (instanceId : InstanceId) : Val :=
  match mapGet m.classInstanceMap (some (num instanceId)) with
  | none => null
  | some inst =>
    if !truthy inst then null
    else
      match mapGet m.classMap (getProp inst "classId") with
      | none => null
      | some parentClass =>
        if !truthy parentClass then null
        else
          let teacher := mapGet m.teacherMap (getProp inst "teacherId")
          obj (mkObj [("instanceId", getProp inst "id"), ("classId", getProp parentClass "id"),
            ("className", getProp parentClass "description"), ("date", getProp inst "date"),
            ("time", getProp parentClass "time"), ("price", getProp parentClass "price"),
            ("teacherName", some (orElse (getPropOpt teacher "name") (str "Unknown Teacher")))])

/-- Lines 18-43 of `CartScreen.js`: `detailedCartItems`. -/
def detailedCartItems (dataLoading : Bool) (m : IndexedModel) (cartItems : List InstanceId) :
    List Val :=
  if dataLoading then [] else (cartItems.map (cartItemDetail m)).filter truthy

/-- Lines 46-48 of `CartScreen.js`: `totalPrice`. The operator `+` and the number `0` are
the arguments `add` and `zero`, so that nothing is assumed about floating-point addition or
about a price that is not a number. -/
def totalPrice {ν : Type} (add : ν → JSVal → ν) (zero : ν) (items : List Val) : ν :=
  items.foldl (fun sum item => add sum (getProp item "price")) zero

/-- Lines 46-60 of `CheckoutScreen.js`: `bookingSummary`, as the pair of `count` and
`total`; `+` and `0` are arguments as in `totalPrice`. -/
def bookingSummary {ν : Type} (add : ν → JSVal → ν) (zero : ν) (dataLoading : Bool)
    (m : IndexedModel) (cartItems : List InstanceId) : Nat × ν :=
  if dataLoading || cartItems.length = 0 then (0, zero)
  else
    cartItems.foldl (fun acc instanceId =>
      let inst := mapGet m.classInstanceMap (some (num instanceId))
      let parentClass : JSVal :=
        if truthyOpt inst then mapGet m.classMap (getPropOpt inst "classId") else some null
      if truthyOpt parentClass then (acc.1 + 1, add acc.2 (getPropOpt parentClass "price"))
      else acc) (0, zero)

/-- The parent class of a stored identifier whose instance is found in `classInstanceMap`
and whose class is found in `classMap`; `none` for any other identifier. -/
def resolvedClassOf (m : IndexedModel) (instanceId : Val) : Option Val :=
  match mapGet m.classInstanceMap (some instanceId) with
  | none => none
  | some inst =>
    if truthy inst then
      match mapGet m.classMap (getProp inst "classId") with
      | none => none
      | some parentClass => if truthy parentClass then some parentClass else none
    else none

/-- The parent class of a cart member whose instance is found in `classInstanceMap` and
whose class is found in `classMap`; `none` for any other member. -/
def resolvedClass (m : IndexedModel) (instanceId : InstanceId) : Option Val :=
  resolvedClassOf m (num instanceId)

/-- A booking as returned by `fetchUserBookings`: the key of the record, the stored list
of identifiers (missing, or a sequence of JSON values) and the stored timestamp (missing,
or a number). -/
structure FetchedBooking where
  id : JSVal
  bookedInstanceIds : Option (List Val)
  bookingTimestamp : Option Int
  deriving DecidableEq

/-- Lines 45-59 of `MyBookingsScreen.js`: the callback enriching one stored identifier;
`null` when the instance or its class is not found. -/
def bookedInstanceDetail (m : IndexedModel) (instanceId : Val) : Val :=
  match mapGet m.classInstanceMap (some instanceId) with
  | none => null
  | some inst =>
    if !truthy inst then null
    else
      match mapGet m.classMap (getProp inst "classId") with
      | none => null
      | some parentClass =>
        if !truthy parentClass then null
        else
          let teacher := mapGet m.teacherMap (getProp inst "teacherId")
          obj (mkObj [("instanceId", getProp inst "id"),
            ("className", getProp parentClass "description"), ("date", getProp inst "date"),
            ("time", getProp parentClass "time"),
            ("teacherName", some (orElse (getPropOpt teacher "name") (str "Unknown"))),
            ("price", getProp parentClass "price")])

/-- Lines 45-60 of `MyBookingsScreen.js`: `instanceDetails` of one booking. -/
def instanceDetails (m : IndexedModel) (booking : FetchedBooking) : List Val :=
  ((booking.bookedInstanceIds.getD []).map (bookedInstanceDetail m)).filter truthy

/-- Lines 62-66 of `MyBookingsScreen.js`: an enriched booking. -/
structure DetailedBooking where
  bookingId : JSVal
  bookingTimestamp : Option Int
  instances : List Val
  deriving DecidableEq

/-- Line 70: `x.bookingTimestamp || 0`. -/
def timestampOrZero (b : DetailedBooking) : Int := b.bookingTimestamp.getD 0

/-- The order induced by the comparator of line 70, the difference of the timestamp of `b`
and the timestamp of `a`: `a` is not after `b`. -/
def newestFirst (a b : DetailedBooking) : Prop := timestampOrZero b ≤ timestampOrZero a

instance : DecidableRel newestFirst :=
  fun a b => inferInstanceAs (Decidable (timestampOrZero b ≤ timestampOrZero a))

/-- Lines 62-66: the enriched form of one fetched booking. -/
def enrichBooking (m : IndexedModel) (booking : FetchedBooking) : DetailedBooking :=
  { bookingId := booking.id
    bookingTimestamp := booking.bookingTimestamp
    instances := instanceDetails m booking }

/-- Lines 44-70 of `MyBookingsScreen.js`: `detailedBookings` after the stable sort. -/
def detailedBookings (m : IndexedModel) (userBookingData : List FetchedBooking) :
    List DetailedBooking :=
  ((userBookingData.map (enrichBooking m)).filter
    (fun booking => decide (booking.instances.length > 0))).insertionSort newestFirst

/-- The state of `MyBookingsScreen` that `loadBookings` writes. -/
structure BookingsState where
  bookings : List DetailedBooking
  isLoading : Bool
  isRefreshing : Bool
  error : Option String

/-- Lines 29-82 of `MyBookingsScreen.js`: `loadBookings`, as the state it leaves.
`userBookingData` is what `fetchUserBookings` resolves with (it never rejects) and
`emailToFetch` is `none` for `null`. -/
def loadBookings (m : IndexedModel) (dataLoading : Bool) (userBookingData : List FetchedBooking)
    (emailToFetch : Option String) (prev : BookingsState) : BookingsState :=
  let noEmail : Bool := emailToFetch = none || emailToFetch = some ""
  if noEmail || dataLoading then
    { bookings := prev.bookings
      isLoading := false
      isRefreshing := prev.isRefreshing
      error :=
        if noEmail then some "No email found. Please book a class first or set your email."
        else prev.error }
  else
    { bookings := detailedBookings m userBookingData
      isLoading := false
      isRefreshing := false
      error := none }

/-! ## The provider: `fetchAllData` and `loadData` of `src/contexts/DataContext.js` -/

/-- The four values that `fetchAllData` returns under `classes`, `classInstances`,
`classTypes` and `teachers`. -/
structure FetchedBundle where
  classes : Val
  classInstances : Val
  classTypes : Val
  teachers : Val

/-- Lines 16-40 of `firebaseService.js`: `fetchAllData`. The argument is the answer of
`get(ref(database, '/'))`: the value of the snapshot, or the error it rejects with. -/
def fetchAllData (answer : Except String Val) : FetchedBundle :=
  match answer with
  | .ok data =>
    { classes := orElse (getProp data "Classes") (arr [])
      classInstances := orElse (getProp data "ClassInstances") (arr [])
      classTypes := orElse (getProp data "ClassTypes") (arr [])
      teachers := orElse (getProp data "Teachers") (arr []) }
  | .error _ =>
    { classes := arr [], classInstances := arr [], classTypes := arr [], teachers := arr [] }

/-- The call `x.map(...)`: only an array has the method; on another value the call throws a
`TypeError`. -/
def asArray (x : Val) : Except JSError (List Val) :=
  match x with
  | arr xs => .ok xs
  | _ => .error .typeError

/-- Line 34 of `DataContext.js`: `processFirebaseData(rawData)` on a fetched bundle. -/
def processFetched (bundle : FetchedBundle) (today : JSDate) : Except JSError IndexedModel :=
  match asArray bundle.classes, asArray bundle.classInstances, asArray bundle.classTypes,
    asArray bundle.teachers with
  | .ok cs, .ok cis, .ok cts, .ok ts =>
    processFirebaseData ⟨some cs, some cis, some cts, some ts⟩ today
  | _, _, _, _ => .error .typeError

/-- The `message` of a thrown error. -/
def JSError.message : JSError → String
  | .typeError => "undefined is not a function"

/-- The state of `DataProvider`. -/
structure ProviderState where
  processedData : IndexedModel
  loading : Bool
  error : Option String

/-- Lines 18-24 of `DataContext.js`: the model before the first load. -/
def emptyModel : IndexedModel :=
  { processedClasses := [], classMap := [], classInstanceMap := [], teacherMap := [],
    classTypeMap := [] }

/-- Lines 28-43 of `DataContext.js`: `loadData`, as the state it leaves. -/
def loadData (answer : Except String Val) (today : JSDate) (prev : ProviderState) :
    ProviderState :=
  match processFetched (fetchAllData answer) today with
  | .ok processed => { processedData := processed, loading := false, error := none }
  | .error err =>
    { processedData := prev.processedData
      loading := false
      error := some (if err.message = "" then "Failed to load data" else err.message) }

/-! ## Objects -/

theorem getField_setField_same (k : String) (v : Val) (o : Obj) :
    getField k (setField k v o) = some v := by
  induction o with
  | nil => simp [setField, getField]
  | cons kv rest ih =>
    obtain ⟨k1, v1⟩ := kv
    by_cases h : k1 = k
    · simp [setField, getField, h]
    · simp [setField, getField, h, ih]

theorem getField_setField_ne {k2 k : String} (h : k2 ≠ k) (v : Val) (o : Obj) :
    getField k2 (setField k v o) = getField k2 o := by
  induction o with
  | nil => simp [setField, getField, Ne.symm h]
  | cons kv rest ih =>
    obtain ⟨k1, v1⟩ := kv
    by_cases h1 : k1 = k
    · subst h1
      simp [setField, getField, Ne.symm h]
    · by_cases h2 : k1 = k2
      · subst h2
        simp [setField, getField, h1]
      · simp [setField, getField, h1, h2, ih]

theorem getProp_withId_id (i : Nat) (x : Val) : getProp (withId i x) "id" = some (num i) := by
  simp [withId, getProp, getField_setField_same]

theorem getProp_withId_ne {k : String} (h : k ≠ "id") (i : Nat) (o : Obj) :
    getProp (withId i (obj o)) k = getField k o := by
  simp [withId, getProp, spread, getField_setField_ne h]

theorem truthy_withId (i : Nat) (x : Val) : truthy (withId i x) = true := rfl

/-! ## Cleaning and indexing -/

theorem cleanAndIndex_eq (raw : List Val) :
    cleanAndIndex raw =
      (raw.enum.filter (fun p => truthy p.2)).map (fun p => withId p.1 p.2) := by
  unfold cleanAndIndex withIds
  rw [List.filter_map]
  have h1 : (truthy ∘ fun p : Nat × Val => if truthy p.2 = true then withId p.1 p.2 else null)
      = fun p => truthy p.2 := by
    funext p
    by_cases h : truthy p.2 = true
    · simp [h, truthy_withId]
    · have hf : truthy p.2 = false := by simpa using h
      simp only [Function.comp_apply, if_neg h, hf]
      rfl
  rw [h1]
  apply List.map_congr_left
  intro p hp
  have := (List.mem_filter.mp hp).2
  simp at this
  simp [this]

theorem futureClassInstances_eq (raw : List Val) (today : JSDate) :
    futureClassInstances raw today =
      (raw.enum.filter
        (fun p => truthy p.2 && keepInstance (todayNum today) (withId p.1 p.2))).map
        (fun p => withId p.1 p.2) := by
  unfold futureClassInstances withIds
  rw [List.filter_map]
  have h1 : (keepInstance (todayNum today) ∘
      fun p : Nat × Val => if truthy p.2 = true then withId p.1 p.2 else null)
      = fun p => truthy p.2 && keepInstance (todayNum today) (withId p.1 p.2) := by
    funext p
    by_cases h : truthy p.2 = true
    · simp [h]
    · have hf : truthy p.2 = false := by simpa using h
      simp only [Function.comp_apply, if_neg h, hf]
      rfl
  rw [h1]
  apply List.map_congr_left
  intro p hp
  have := (List.mem_filter.mp hp).2
  simp at this
  simp [this.1]

/-! ## Maps -/

theorem mapSet_append (k : JSVal) (v : Val) (m : JSMap)
    (h : ∀ e ∈ m, strictEq e.1 k = false) : mapSet k v m = m ++ [(k, v)] := by
  induction m with
  | nil => rfl
  | cons e rest ih =>
    obtain ⟨k1, v1⟩ := e
    have h1 : strictEq k1 k = false := h (k1, v1) (List.mem_cons_self _ _)
    simp [mapSet, h1, ih (fun e he => h e (List.mem_cons_of_mem _ he))]

theorem foldl_mapSet_append (es acc : JSMap)
    (h : (acc ++ es).Pairwise (fun a b => strictEq a.1 b.1 = false)) :
    es.foldl (fun m e => mapSet e.1 e.2 m) acc = acc ++ es := by
  induction es generalizing acc with
  | nil => simp
  | cons e rest ih =>
    have hacc : ∀ a ∈ acc, strictEq a.1 e.1 = false := by
      intro a ha
      have := List.pairwise_append.mp h
      exact this.2.2 a ha e (List.mem_cons_self _ _)
    simp only [List.foldl_cons]
    rw [mapSet_append _ _ _ hacc, ih]
    · simp
    · simpa using h

theorem newMap_eq_self (es : JSMap) (h : es.Pairwise (fun a b => strictEq a.1 b.1 = false)) :
    newMap es = es := by
  unfold newMap
  rw [foldl_mapSet_append es [] (by simpa using h)]
  simp

theorem strictEq_num_nat (i j : Nat) :
    strictEq (some (num (i : Int))) (some (num (j : Int))) = decide (i = j) := by
  by_cases h : i = j <;> simp [strictEq, h]

theorem mapById_withId (l : List (Nat × Val)) (h : (l.map Prod.fst).Nodup) :
    mapById (l.map (fun p => withId p.1 p.2)) =
      l.map (fun p => ((some (num (p.1 : Int)) : JSVal), withId p.1 p.2)) := by
  unfold mapById
  rw [List.map_map]
  have h2 : ((fun x => (getProp x "id", x)) ∘ fun p : Nat × Val => withId p.1 p.2)
      = fun p => ((some (num (p.1 : Int)) : JSVal), withId p.1 p.2) := by
    funext p
    simp [getProp_withId_id]
  rw [h2]
  apply newMap_eq_self
  rw [List.pairwise_map]
  have h3 := List.pairwise_map.mp h
  refine h3.imp ?_
  intro a b hab
  simp [strictEq_num_nat, hab]

theorem mapGet_of_mem (l : List (Nat × Val)) (h : (l.map Prod.fst).Nodup) (i : Nat) (x : Val)
    (hm : (i, x) ∈ l) :
    mapGet (l.map (fun p => ((some (num (p.1 : Int)) : JSVal), withId p.1 p.2)))
      (some (num (i : Int))) = some (withId i x) := by
  induction l with
  | nil => simp at hm
  | cons p rest ih =>
    obtain ⟨j, y⟩ := p
    simp only [List.map_cons, List.nodup_cons] at h
    rcases List.mem_cons.mp hm with heq | hrest
    · cases heq
      simp [mapGet, strictEq]
    · have hne : j ≠ i := by
        intro e
        subst e
        exact h.1 (List.mem_map.mpr ⟨(j, x), hrest, rfl⟩)
      simp [mapGet, strictEq_num_nat, hne, ih h.2 hrest]

theorem mapGet_inv (l : List (Nat × Val)) (k : JSVal) (v : Val)
    (hg : mapGet (l.map (fun p => ((some (num (p.1 : Int)) : JSVal), withId p.1 p.2))) k = some v) :
    ∃ p ∈ l, k = some (num (p.1 : Int)) ∧ v = withId p.1 p.2 := by
  induction l with
  | nil => simp [mapGet] at hg
  | cons p rest ih =>
    simp only [List.map_cons, mapGet] at hg
    by_cases hk : strictEq (some (num (p.1 : Int))) k = true
    · rw [if_pos hk] at hg
      refine ⟨p, List.mem_cons_self _ _, ?_, ?_⟩
      · revert hk
        cases k with
        | none => simp [strictEq]
        | some kv =>
          cases kv <;> simp [strictEq]
          intro e; exact e.symm
      · exact (Option.some.inj hg).symm
    · rw [if_neg hk] at hg
      obtain ⟨q, hq, h1, h2⟩ := ih hg
      exact ⟨q, List.mem_cons_of_mem _ hq, h1, h2⟩

theorem nodup_fst_filter_enum (raw : List Val) (f : Nat × Val → Bool) :
    ((raw.enum.filter f).map Prod.fst).Nodup := by
  have h : (raw.enum.map Prod.fst).Nodup := by
    rw [List.enum_map_fst]
    exact List.nodup_range _
  exact h.sublist ((List.filter_sublist _).map _)

/-! ## The date filter and the sort -/

theorem parseInt_nil : parseInt [] = none := rfl

theorem keepInstance_obj_iff (t : Option Int) (o : Obj) :
    keepInstance t (obj o) = true ↔
      ∃ s n tn, getField "date" o = some (str s) ∧
        parseInt (removeHyphens s.data) = some n ∧ t = some tn ∧ tn ≤ n := by
  constructor
  · intro h
    unfold keepInstance at h
    simp only [getProp] at h
    cases hd : getField "date" o with
    | none => simp [hd, truthyOpt] at h
    | some v =>
      cases v with
      | str s =>
        cases hp : parseInt (removeHyphens s.data) with
        | none => simp [hd, hp] at h
        | some n =>
          cases t with
          | none => simp [hd, hp] at h
          | some tn =>
            refine ⟨s, n, tn, rfl, hp, rfl, ?_⟩
            simp [hd, hp] at h
            exact h.2
      | null => simp [hd] at h
      | bool b => simp [hd] at h
      | num k => simp [hd] at h
      | arr xs => simp [hd] at h
      | obj fs => simp [hd] at h
  · rintro ⟨s, n, tn, hs, hn, ht, hle⟩
    have hne : s ≠ "" := by
      intro e
      subst e
      simp [removeHyphens, parseInt_nil] at hn
    simp [keepInstance, getProp, hs, hn, ht, hle, truthy, truthyOpt, hne]

theorem getProp_withTeacher_ne {k : String} (h : k ≠ "teacher") (tm : JSMap) (o : Obj) :
    getProp (withTeacher tm (obj o)) k = getField k o := by
  simp [withTeacher, getProp, spread, getField_setField_ne h]

theorem getProp_withTeacher_teacher (tm : JSMap) (x : Val) :
    getProp (withTeacher tm x) "teacher" =
      some (orElse (mapGet tm (getProp x "teacherId")) unknownTeacher) := by
  simp [withTeacher, getProp, getField_setField_same]

theorem sortByDate_ok (l : List Val) (h : ∀ x ∈ l, hasStringDate x = true) :
    sortByDate l = .ok (l.insertionSort dateLE) := by
  unfold sortByDate
  split
  · rename_i hlen
    match l, hlen with
    | [], _ => rfl
    | [a], _ => rfl
    | _ :: _ :: _, hlen => exact absurd hlen (by simp)
  · rw [if_pos (List.all_eq_true.mpr h)]

theorem mapExcept_ok {α β : Type} (f : α → Except JSError β) (g : α → β) (l : List α)
    (h : ∀ a ∈ l, f a = .ok (g a)) : mapExcept f l = .ok (l.map g) := by
  induction l with
  | nil => rfl
  | cons a rest ih =>
    simp [mapExcept, h a (List.mem_cons_self _ _),
      ih (fun b hb => h b (List.mem_cons_of_mem _ hb))]

/-- Every future instance is an indexed raw record whose date passed the filter. -/
theorem mem_futureClassInstances (raw : List Val) (today : JSDate) (x : Val) :
    x ∈ futureClassInstances raw today ↔
      ∃ i r, raw[i]? = some r ∧ truthy r = true ∧ x = withId i r ∧
        keepInstance (todayNum today) (withId i r) = true := by
  rw [futureClassInstances_eq]
  simp only [List.mem_map, List.mem_filter, Bool.and_eq_true]
  constructor
  · rintro ⟨p, ⟨hp, ht, hk⟩, rfl⟩
    exact ⟨p.1, p.2, List.mem_enum_iff_getElem?.mp hp, ht, rfl, hk⟩
  · rintro ⟨i, r, hr, ht, rfl, hk⟩
    exact ⟨(i, r), ⟨List.mk_mem_enum_iff_getElem?.mpr hr, ht, hk⟩, rfl⟩

theorem mem_cleanAndIndex (raw : List Val) (x : Val) :
    x ∈ cleanAndIndex raw ↔ ∃ i r, raw[i]? = some r ∧ truthy r = true ∧ x = withId i r := by
  rw [cleanAndIndex_eq]
  simp only [List.mem_map, List.mem_filter]
  constructor
  · rintro ⟨p, ⟨hp, ht⟩, rfl⟩
    exact ⟨p.1, p.2, List.mem_enum_iff_getElem?.mp hp, ht, rfl⟩
  · rintro ⟨i, r, hr, ht, rfl⟩
    exact ⟨(i, r), ⟨List.mk_mem_enum_iff_getElem?.mpr hr, ht⟩, rfl⟩

theorem hasStringDate_of_future (raw : List Val) (today : JSDate) (tm : JSMap) (x : Val)
    (hx : x ∈ futureClassInstances raw today) : hasStringDate (withTeacher tm x) = true := by
  obtain ⟨i, r, _, _, rfl, hk⟩ := (mem_futureClassInstances raw today x).mp hx
  unfold withId at hk ⊢
  obtain ⟨s, n, tn, hs, _, _, _⟩ := (keepInstance_obj_iff _ _).mp hk
  simp [hasStringDate, getProp_withTeacher_ne (show "date" ≠ "teacher" by decide), hs]

theorem instancesOf_ok (raw : List Val) (today : JSDate) (tm : JSMap) (cls : Val) :
    instancesOf (futureClassInstances raw today) tm cls =
      .ok ((instancesBeforeSort (futureClassInstances raw today) tm cls).insertionSort dateLE) := by
  unfold instancesOf
  apply sortByDate_ok
  intro x hx
  unfold instancesBeforeSort at hx
  obtain ⟨y, hy, rfl⟩ := List.mem_map.mp hx
  exact hasStringDate_of_future raw today tm y (List.mem_filter.mp hy).1

/-- The pass never throws, and its result is given in closed form. -/
theorem processFirebaseData_eq (rawData : RawData) (today : JSDate) :
    processFirebaseData rawData today =
      .ok { processedClasses :=
              (cleanAndIndex (rawData.classes.getD [])).map (fun cls =>
                assembleClass (mapById (cleanAndIndex (rawData.classTypes.getD []))) cls
                  ((instancesBeforeSort
                    (futureClassInstances (rawData.classInstances.getD []) today)
                    (mapById (cleanAndIndex (rawData.teachers.getD []))) cls).insertionSort
                    dateLE))
            classMap := mapById (cleanAndIndex (rawData.classes.getD []))
            classInstanceMap :=
              mapById (futureClassInstances (rawData.classInstances.getD []) today)
            teacherMap := mapById (cleanAndIndex (rawData.teachers.getD []))
            classTypeMap := mapById (cleanAndIndex (rawData.classTypes.getD [])) } := by
  unfold processFirebaseData
  simp only
  rw [mapExcept_ok _ (fun cls =>
      assembleClass (mapById (cleanAndIndex (rawData.classTypes.getD []))) cls
        ((instancesBeforeSort
          (futureClassInstances (rawData.classInstances.getD []) today)
          (mapById (cleanAndIndex (rawData.teachers.getD []))) cls).insertionSort dateLE))]
  intro cls _
  unfold processClass
  rw [instancesOf_ok]

/-! ## Decimal digits, `parseInt` and the reference day -/

theorem isDigit_digitChar (n : Nat) (h : n < 10) :
    isDigit (digitChar n) = true ∧ digitVal (digitChar n) = n := by
  interval_cases n <;> exact ⟨rfl, rfl⟩

theorem foldl_digits (ds : List Char) (acc : Nat) :
    ds.foldl (fun a c => 10 * a + digitVal c) acc = acc * 10 ^ ds.length + digitsToNat ds := by
  induction ds generalizing acc with
  | nil => simp [digitsToNat]
  | cons c rest ih =>
    simp only [List.foldl_cons, digitsToNat, List.length_cons]
    rw [ih, ih (10 * 0 + digitVal c)]
    ring

theorem digitsToNat_append (a b : List Char) :
    digitsToNat (a ++ b) = digitsToNat a * 10 ^ b.length + digitsToNat b := by
  unfold digitsToNat
  rw [List.foldl_append, foldl_digits]
  rfl

theorem natDigits_spec (fuel n : Nat) (h : n < fuel) :
    natDigits fuel n ≠ [] ∧ (∀ c ∈ natDigits fuel n, isDigit c = true) ∧
      digitsToNat (natDigits fuel n) = n := by
  induction fuel generalizing n with
  | zero => omega
  | succ f ih =>
    unfold natDigits
    by_cases h10 : n < 10
    · rw [if_pos h10]
      refine ⟨by simp, ?_, ?_⟩
      · intro c hc
        rw [List.mem_singleton.mp hc]
        exact (isDigit_digitChar n h10).1
      · simp [digitsToNat, (isDigit_digitChar n h10).2]
    · rw [if_neg h10]
      have hlt : n / 10 < f := by omega
      obtain ⟨_, h2, h3⟩ := ih (n / 10) hlt
      have hmod : n % 10 < 10 := Nat.mod_lt _ (by decide)
      refine ⟨by simp, ?_, ?_⟩
      · intro c hc
        rcases List.mem_append.mp hc with hc | hc
        · exact h2 c hc
        · rw [List.mem_singleton.mp hc]
          exact (isDigit_digitChar _ hmod).1
      · rw [digitsToNat_append, h3]
        simp [digitsToNat, (isDigit_digitChar _ hmod).2]
        omega

theorem isDigit_not_whitespace (c : Char) (h : isDigit c = true) : isJSWhitespace c = false := by
  simp only [isDigit, Bool.and_eq_true, decide_eq_true_eq] at h
  simp only [isJSWhitespace, Bool.or_eq_false_iff, Bool.and_eq_false_imp, decide_eq_false_iff_not,
    decide_eq_true_eq]
  omega

theorem isDigit_ne_hyphen (c : Char) (h : isDigit c = true) : c ≠ '-' := by
  intro e
  subst e
  revert h
  decide

theorem isDigit_bne_hyphen (c : Char) (h : isDigit c = true) : (c != '-') = true := by
  simpa using isDigit_ne_hyphen c h

theorem isDigit_ne_plus (c : Char) (h : isDigit c = true) : c ≠ '+' := by
  intro e
  subst e
  revert h
  decide

/-! ## Rounding to a double -/

theorem twoPow53_eq : twoPow53 = 2 ^ 53 := by decide

theorem doubleInfinity_eq : doubleInfinity = 2 ^ 1024 := by
  unfold doubleInfinity
  norm_num

/-- An integer below `2 ^ 53` is a double: rounding leaves it as it is. -/
theorem roundToDouble_of_lt (n : Nat) (h : n < twoPow53) : roundToDouble n = n := by
  unfold roundToDouble
  rw [if_pos h]

theorem le_shifted (fuel n : Nat) (h : twoPow53 ≤ n) :
    twoPow53 ≤ n / 2 ^ halvings fuel n * 2 ^ halvings fuel n := by
  induction fuel generalizing n with
  | zero => simpa [halvings] using h
  | succ f ih =>
    have hn : ¬ n < twoPow53 := Nat.not_lt.mpr h
    have hpow : n / 2 ^ (halvings f (n / 2) + 1) * 2 ^ (halvings f (n / 2) + 1) =
        2 * (n / 2 / 2 ^ halvings f (n / 2) * 2 ^ halvings f (n / 2)) := by
      rw [Nat.pow_succ, Nat.mul_comm (2 ^ halvings f (n / 2)) 2, ← Nat.div_div_eq_div_mul]
      ring
    rw [halvings, if_neg hn, hpow]
    by_cases h2 : twoPow53 ≤ n / 2
    · have := ih (n / 2) h2
      omega
    · have h0 : halvings f (n / 2) = 0 := by
        cases f with
        | zero => rfl
        | succ g => rw [halvings, if_pos (Nat.not_le.mp h2)]
      rw [h0]
      unfold twoPow53 at h h2 ⊢
      omega

/-- Rounding never takes an integer from `2 ^ 53` on below `2 ^ 53`. -/
theorem le_roundToDouble (n : Nat) (h : twoPow53 ≤ n) : twoPow53 ≤ roundToDouble n := by
  have hn : ¬ n < twoPow53 := Nat.not_lt.mpr h
  have hq := le_shifted n n h
  have key : ∀ x, twoPow53 ≤ x →
      twoPow53 ≤ (if doubleInfinity ≤ x then doubleInfinity else x) := by
    intro x hx
    by_cases hx2 : doubleInfinity ≤ x
    · rw [if_pos hx2]
      decide
    · rw [if_neg hx2]
      exact hx
  unfold roundToDouble
  rw [if_neg hn]
  apply key
  refine Nat.le_trans hq (Nat.mul_le_mul_right _ ?_)
  split
  · exact Nat.le_succ _
  · exact Nat.le_refl _

theorem div_two_pow_succ (n k : Nat) : n / 2 ^ (k + 1) = n / 2 / 2 ^ k := by
  rw [Nat.pow_succ', Nat.div_div_eq_div_mul]

theorem halvings_lt (fuel n : Nat) (h : n < 2 ^ fuel * twoPow53) :
    n / 2 ^ halvings fuel n < twoPow53 := by
  induction fuel generalizing n with
  | zero => simpa [halvings] using h
  | succ f ih =>
    by_cases hn : n < twoPow53
    · rw [halvings, if_pos hn]
      simpa using hn
    · rw [halvings, if_neg hn, div_two_pow_succ]
      apply ih
      have h2 : 2 ^ (f + 1) * twoPow53 = 2 * (2 ^ f * twoPow53) := by ring
      rw [h2] at h
      omega

theorem le_halvings (fuel n : Nat) (h : twoPow53 ≤ n) :
    2 ^ 52 ≤ n / 2 ^ halvings fuel n := by
  induction fuel generalizing n with
  | zero =>
    unfold twoPow53 at h
    simp only [halvings, pow_zero, Nat.div_one]
    omega
  | succ f ih =>
    have hn : ¬ n < twoPow53 := Nat.not_lt.mpr h
    rw [halvings, if_neg hn, div_two_pow_succ]
    by_cases h2 : twoPow53 ≤ n / 2
    · exact ih (n / 2) h2
    · have h0 : halvings f (n / 2) = 0 := by
        cases f with
        | zero => rfl
        | succ g => rw [halvings, if_pos (Nat.not_le.mp h2)]
      rw [h0]
      unfold twoPow53 at h
      simp only [pow_zero, Nat.div_one]
      omega

/-- The significand of an integer from `2 ^ 53` on has exactly 53 bits. -/
theorem significand_range (n : Nat) (h : twoPow53 ≤ n) :
    2 ^ 52 ≤ n / 2 ^ halvings n n ∧ n / 2 ^ halvings n n < 2 ^ 53 := by
  refine ⟨le_halvings n n h, ?_⟩
  have h1 : n < 2 ^ n * twoPow53 :=
    Nat.lt_of_lt_of_le (Nat.lt_two_pow n) (Nat.le_mul_of_pos_right _ (by decide))
  have := halvings_lt n n h1
  unfold twoPow53 at this
  omega

/-- Against an integer below `2 ^ 53` a rounded number compares as the exact one does. -/
theorem roundToDouble_le_iff (t n : Nat) (hn : n < twoPow53) : roundToDouble t ≤ n ↔ t ≤ n := by
  by_cases ht : t < twoPow53
  · rw [roundToDouble_of_lt t ht]
  · have h1 := le_roundToDouble t (Nat.not_lt.mp ht)
    constructor <;> intro h <;> omega

theorem parseInt_digits (ds : List Char) (hne : ds ≠ []) (h : ∀ c ∈ ds, isDigit c = true) :
    parseInt ds = some (roundToDouble (digitsToNat ds) : Int) := by
  match ds, hne with
  | c :: rest, _ =>
    have hc := h c (List.mem_cons_self _ _)
    have htake : (c :: rest).takeWhile isDigit = c :: rest :=
      List.takeWhile_eq_self_iff.mpr h
    have hdrop : (c :: rest).dropWhile isJSWhitespace = c :: rest := by
      simp [List.dropWhile, isDigit_not_whitespace c hc]
    have hsign : stripSign (c :: rest) = (1, c :: rest) := by
      simp [stripSign, isDigit_ne_hyphen c hc, isDigit_ne_plus c hc]
    unfold parseInt
    simp only [hdrop, hsign, htake]
    simp

theorem padStart2_spec (n : Nat) (h : n < 100) :
    (padStart2 (numberToString n)).length = 2 ∧
      (∀ c ∈ padStart2 (numberToString n), isDigit c = true) ∧
      digitsToNat (padStart2 (numberToString n)) = n := by
  interval_cases n <;> decide

/-- Lines 22-26 compute the double nearest to `year * 10000 + month * 100 + day` (month
one-based). -/
theorem todayNum_eq (today : JSDate) (hm : today.month + 1 < 100) (hd : today.date < 100) :
    todayNum today =
      some ((roundToDouble
        (today.fullYear * 10000 + (today.month + 1) * 100 + today.date) : Nat) : Int) := by
  obtain ⟨y1, y2, y3⟩ := natDigits_spec (today.fullYear + 1) today.fullYear (Nat.lt_succ_self _)
  obtain ⟨m1, m2, m3⟩ := padStart2_spec _ hm
  obtain ⟨d1, d2, d3⟩ := padStart2_spec _ hd
  unfold todayNum
  simp only
  rw [parseInt_digits]
  · have hy : digitsToNat (numberToString today.fullYear) = today.fullYear := y3
    rw [digitsToNat_append, digitsToNat_append, m1, d1, m3, d3, hy]
    congr 3
    ring
  · simp [numberToString, y1]
  · intro c hc
    rcases List.mem_append.mp hc with hc | hc
    · rcases List.mem_append.mp hc with hc | hc
      · exact y2 c hc
      · exact m2 c hc
    · exact d2 c hc

theorem todayNum_valid (today : JSDate) (h : today.Valid) :
    todayNum today =
      some ((roundToDouble
        (today.fullYear * 10000 + (today.month + 1) * 100 + today.date) : Nat) : Int) := by
  obtain ⟨h1, _, h3⟩ := h
  exact todayNum_eq today (by omega) (by omega)

theorem digitVal_lt (c : Char) (h : isDigit c = true) : digitVal c < 10 := by
  simp only [isDigit, Bool.and_eq_true, decide_eq_true_eq] at h
  unfold digitVal
  omega

/-- A well-formed date parses to `year * 10000 + month * 100 + day`, exactly: the integer has
eight digits, so it is a double. -/
theorem parseInt_isoDate (s : String) (Y M D : Nat) (h : parseIsoDate s = some (Y, M, D)) :
    parseInt (removeHyphens s.data) = some ((Y * 10000 + M * 100 + D : Nat) : Int) ∧
      M < 100 ∧ D < 100 ∧ Y < 10000 := by
  unfold parseIsoDate at h
  split at h
  · rename_i y1 y2 y3 y4 h1 m1 m2 h2 d1 d2 hs
    split at h
    · rename_i hc
      obtain ⟨e1, e2, hall⟩ := hc
      subst e1 e2
      simp only [List.all_cons, List.all_nil, Bool.and_true, Bool.and_eq_true] at hall
      obtain ⟨a1, a2, a3, a4, a5, a6, a7, a8⟩ := hall
      simp only [Option.some.injEq, Prod.mk.injEq] at h
      obtain ⟨rfl, rfl, rfl⟩ := h
      have hr : removeHyphens s.data = [y1, y2, y3, y4, m1, m2, d1, d2] := by
        rw [hs]
        simp only [removeHyphens, List.filter_cons, List.filter_nil, isDigit_bne_hyphen _ a1,
          isDigit_bne_hyphen _ a2, isDigit_bne_hyphen _ a3, isDigit_bne_hyphen _ a4,
          isDigit_bne_hyphen _ a5, isDigit_bne_hyphen _ a6, isDigit_bne_hyphen _ a7,
          isDigit_bne_hyphen _ a8, if_true]
        rfl
      have b1 := digitVal_lt _ a1
      have b2 := digitVal_lt _ a2
      have b3 := digitVal_lt _ a3
      have b4 := digitVal_lt _ a4
      have b5 := digitVal_lt _ a5
      have b6 := digitVal_lt _ a6
      have b7 := digitVal_lt _ a7
      have b8 := digitVal_lt _ a8
      refine ⟨?_, ?_, ?_, ?_⟩
      · rw [hr, parseInt_digits _ (by simp), roundToDouble_of_lt]
        · simp only [digitsToNat, List.foldl_cons, List.foldl_nil]
          congr 2
          omega
        · simp only [digitsToNat, List.foldl_cons, List.foldl_nil, twoPow53]
          omega
        · intro c hc
          simp only [List.mem_cons, List.mem_singleton, List.not_mem_nil, or_false] at hc
          rcases hc with rfl | rfl | rfl | rfl | rfl | rfl | rfl | rfl <;> assumption
      · simp only [digitsToNat, List.foldl_cons, List.foldl_nil]
        omega
      · simp only [digitsToNat, List.foldl_cons, List.foldl_nil]
        omega
      · simp only [digitsToNat, List.foldl_cons, List.foldl_nil]
        omega
    · simp at h
  · simp at h

/-! ## The assembled class and the lookup maps -/

theorem getProp_assembleClass_instances (ctm : JSMap) (cls : Val) (ins : List Val) :
    getProp (assembleClass ctm cls ins) "instances" = some (arr ins) := by
  simp [assembleClass, getProp, getField_setField_same,
    getField_setField_ne (show "instances" ≠ "daysOfWeek" by decide)]

theorem getProp_assembleClass_daysOfWeek (ctm : JSMap) (cls : Val) (ins : List Val) :
    getProp (assembleClass ctm cls ins) "daysOfWeek" = some (daysOfWeekOf cls) := by
  simp [assembleClass, getProp, getField_setField_same]

theorem getProp_assembleClass_classType (ctm : JSMap) (cls : Val) (ins : List Val) :
    getProp (assembleClass ctm cls ins) "classType" =
      some (orElse (mapGet ctm (getProp cls "classTypeId")) unknownType) := by
  simp [assembleClass, getProp, getField_setField_same,
    getField_setField_ne (show "classType" ≠ "daysOfWeek" by decide),
    getField_setField_ne (show "classType" ≠ "instances" by decide)]

theorem getProp_assembleClass_other {k : String} (h1 : k ≠ "daysOfWeek") (h2 : k ≠ "instances")
    (h3 : k ≠ "classType") (ctm : JSMap) (o : Obj) (ins : List Val) :
    getProp (assembleClass ctm (obj o) ins) k = getField k o := by
  simp [assembleClass, getProp, spread, getField_setField_ne h1, getField_setField_ne h2,
    getField_setField_ne h3]

theorem getProp_assembleClass_withId {k : String} (h1 : k ≠ "daysOfWeek")
    (h2 : k ≠ "instances") (h3 : k ≠ "classType") (ctm : JSMap) (i : Nat) (r : Val)
    (ins : List Val) :
    getProp (assembleClass ctm (withId i r) ins) k = getProp (withId i r) k := by
  unfold withId
  rw [getProp_assembleClass_other h1 h2 h3]
  rfl

/-- The map built from the indexed records that pass `f`: a lookup succeeds exactly at the
positions of the raw array whose record passes. -/
theorem mapGet_mapById_filter (raw : List Val) (f : Nat × Val → Bool) (k : JSVal) (v : Val) :
    mapGet (mapById ((raw.enum.filter f).map (fun p => withId p.1 p.2))) k = some v ↔
      ∃ (i : Nat) (r : Val), k = some (num (i : Int)) ∧ raw[i]? = some r ∧ f (i, r) = true ∧ v = withId i r := by
  rw [mapById_withId _ (nodup_fst_filter_enum raw f)]
  constructor
  · intro h
    obtain ⟨p, hp, hk, hv⟩ := mapGet_inv _ k v h
    obtain ⟨hp1, hp2⟩ := List.mem_filter.mp hp
    exact ⟨p.1, p.2, hk, List.mem_enum_iff_getElem?.mp hp1, hp2, hv⟩
  · rintro ⟨i, r, rfl, hr, hf, rfl⟩
    apply mapGet_of_mem _ (nodup_fst_filter_enum raw f)
    exact List.mem_filter.mpr ⟨List.mk_mem_enum_iff_getElem?.mpr hr, hf⟩

theorem mapGet_clean (raw : List Val) (k : JSVal) (v : Val) :
    mapGet (mapById (cleanAndIndex raw)) k = some v ↔
      ∃ (i : Nat) (r : Val), k = some (num (i : Int)) ∧ raw[i]? = some r ∧ truthy r = true ∧ v = withId i r := by
  rw [cleanAndIndex_eq]
  exact mapGet_mapById_filter raw _ k v

theorem mapGet_future (raw : List Val) (today : JSDate) (k : JSVal) (v : Val) :
    mapGet (mapById (futureClassInstances raw today)) k = some v ↔
      ∃ (i : Nat) (r : Val), k = some (num (i : Int)) ∧ raw[i]? = some r ∧ truthy r = true ∧
        keepInstance (todayNum today) (withId i r) = true ∧ v = withId i r := by
  rw [futureClassInstances_eq, mapGet_mapById_filter]
  simp only [Bool.and_eq_true, and_assoc]

theorem map_snd_mapById_future (raw : List Val) (today : JSDate) :
    (mapById (futureClassInstances raw today)).map Prod.snd = futureClassInstances raw today := by
  rw [futureClassInstances_eq, mapById_withId _ (nodup_fst_filter_enum raw _), List.map_map]
  rfl

theorem mem_instancesBeforeSort (fut : List Val) (tm : JSMap) (cls e : Val) :
    e ∈ instancesBeforeSort fut tm cls ↔
      ∃ x ∈ fut, strictEq (getProp x "classId") (getProp cls "id") = true ∧
        e = withTeacher tm x := by
  unfold instancesBeforeSort
  simp only [List.mem_map, List.mem_filter]
  constructor
  · rintro ⟨x, ⟨hx, hc⟩, rfl⟩
    exact ⟨x, hx, hc, rfl⟩
  · rintro ⟨x, hx, hc, rfl⟩
    exact ⟨x, ⟨hx, hc⟩, rfl⟩

theorem getProp_withTeacher_withId {k : String} (h : k ≠ "teacher") (tm : JSMap) (i : Nat)
    (r : Val) : getProp (withTeacher tm (withId i r)) k = getProp (withId i r) k := by
  unfold withId
  rw [getProp_withTeacher_ne h]
  rfl

/-- A record that the date filter rejects is in no map entry and in no instance list. -/
theorem dropped_of_not_kept (raw : List Val) (today : JSDate) (i : Nat) (r : Val)
    (hr : raw[i]? = some r) (hk : keepInstance (todayNum today) (withId i r) = false) :
    mapGet (mapById (futureClassInstances raw today)) (some (num (i : Int))) = none ∧
      ∀ x ∈ futureClassInstances raw today, getProp x "id" ≠ some (num (i : Int)) := by
  constructor
  · cases hg : mapGet (mapById (futureClassInstances raw today)) (some (num (i : Int))) with
    | none => rfl
    | some v =>
      obtain ⟨j, r2, hj, hr2, _, hk2, _⟩ := (mapGet_future raw today _ v).mp hg
      simp only [Option.some.injEq, Val.num.injEq, Nat.cast_inj] at hj
      rw [← hj] at hr2 hk2
      rw [hr] at hr2
      cases hr2
      rw [hk] at hk2
      cases hk2
  · intro x hx hid
    obtain ⟨j, r2, hr2, _, rfl, hk2⟩ := (mem_futureClassInstances raw today x).mp hx
    rw [getProp_withId_id] at hid
    simp only [Option.some.injEq, Val.num.injEq, Nat.cast_inj] at hid
    rw [hid] at hr2 hk2
    rw [hr] at hr2
    cases hr2
    rw [hk] at hk2
    cases hk2

theorem dateLE_total : IsTotal Val dateLE := ⟨fun a b => Int.le_total (dateNum a) (dateNum b)⟩

theorem dateLE_trans : IsTrans Val dateLE := ⟨fun _ _ _ h1 h2 => Int.le_trans h1 h2⟩

theorem sorted_insertionSort_dateLE (l : List Val) : (l.insertionSort dateLE).Sorted dateLE :=
  @List.sorted_insertionSort Val dateLE _ dateLE_total dateLE_trans l

/-! ## The result of the pass, field by field -/

theorem processFirebaseData_fields (rawData : RawData) (today : JSDate) :
    ∃ m, processFirebaseData rawData today = .ok m ∧
      m.processedClasses =
        (cleanAndIndex (rawData.classes.getD [])).map (fun cls =>
          assembleClass m.classTypeMap cls
            ((instancesBeforeSort (futureClassInstances (rawData.classInstances.getD []) today)
              m.teacherMap cls).insertionSort dateLE)) ∧
      m.classMap = mapById (cleanAndIndex (rawData.classes.getD [])) ∧
      m.classInstanceMap =
        mapById (futureClassInstances (rawData.classInstances.getD []) today) ∧
      m.teacherMap = mapById (cleanAndIndex (rawData.teachers.getD [])) ∧
      m.classTypeMap = mapById (cleanAndIndex (rawData.classTypes.getD [])) :=
  ⟨_, processFirebaseData_eq rawData today, rfl, rfl, rfl, rfl, rfl⟩

theorem mem_map_assemble (rc : List Val) (ctm : JSMap) (g : Val → List Val) (c : Val) :
    c ∈ (cleanAndIndex rc).map (fun cls => assembleClass ctm cls (g cls)) ↔
      ∃ (j : Nat) (r : Val), rc[j]? = some r ∧ truthy r = true ∧
        c = assembleClass ctm (withId j r) (g (withId j r)) := by
  simp only [List.mem_map, mem_cleanAndIndex]
  constructor
  · rintro ⟨cls, ⟨j, r, hr, ht, rfl⟩, rfl⟩
    exact ⟨j, r, hr, ht, rfl⟩
  · rintro ⟨j, r, hr, ht, rfl⟩
    exact ⟨withId j r, ⟨j, r, hr, ht, rfl⟩, rfl⟩

/-- On a well-formed date the filter keeps the record exactly when its calendar day is not
before the reference day. -/
theorem keepInstance_isoDate (today : JSDate) (hv : today.Valid) (i : Nat) (o : Obj) (s : String)
    (ymd : Nat × Nat × Nat) (hdate : getField "date" o = some (str s))
    (hwf : parseIsoDate s = some ymd) :
    keepInstance (todayNum today) (withId i (obj o)) = true ↔ ¬ calendarLT ymd today.ymd := by
  obtain ⟨Y, M, D⟩ := ymd
  obtain ⟨hp, hM, hD, hY⟩ := parseInt_isoDate s Y M D hwf
  have ht := todayNum_valid today hv
  obtain ⟨h1, h2, h3⟩ := hv
  have hround := roundToDouble_le_iff
    (today.fullYear * 10000 + (today.month + 1) * 100 + today.date) (Y * 10000 + M * 100 + D)
    (by unfold twoPow53; omega)
  have hd2 : getField "date" (setField "id" (num (i : Int)) o) = some (str s) := by
    rw [getField_setField_ne (by decide)]
    exact hdate
  unfold withId
  simp only [spread]
  rw [keepInstance_obj_iff]
  simp only [calendarLT, JSDate.ymd]
  constructor
  · rintro ⟨s2, n, tn, hs2, hn, htn, hle⟩
    rw [hd2] at hs2
    cases hs2
    rw [hp] at hn
    rw [ht] at htn
    cases hn
    cases htn
    have hle2 := hround.mp (Int.ofNat_le.mp hle)
    omega
  · intro h
    refine ⟨s, _, _, hd2, hp, ht, ?_⟩
    exact Int.ofNat_le.mpr (hround.mpr (by omega))

/-- C1: a record whose well-formed date is before the reference day is absent from
`classInstanceMap` and from every `instances` list; a record dated on the reference day is a
key of `classInstanceMap` and is in the `instances` list of the class whose `id` equals its
`classId`. -/
theorem future_window_boundary (rawData : RawData) (today : JSDate) (hv : today.Valid)
    (i : Nat) (o : Obj) (s : String) (ymd : Nat × Nat × Nat)
    (hrec : (rawData.classInstances.getD [])[i]? = some (obj o))
    (hdate : getField "date" o = some (str s))
    (hwf : parseIsoDate s = some ymd) :
    ∃ m, processFirebaseData rawData today = .ok m ∧
      (calendarLT ymd today.ymd →
        mapGet m.classInstanceMap (some (num (i : Int))) = none ∧
        ∀ c ∈ m.processedClasses, ∀ l, getProp c "instances" = some (arr l) →
          ∀ e ∈ l, getProp e "id" ≠ some (num (i : Int))) ∧
      (ymd = today.ymd →
        mapGet m.classInstanceMap (some (num (i : Int))) = some (withId i (obj o)) ∧
        ∀ c ∈ m.processedClasses, strictEq (getField "classId" o) (getProp c "id") = true →
          ∃ l, getProp c "instances" = some (arr l) ∧
            withTeacher m.teacherMap (withId i (obj o)) ∈ l) := by
  obtain ⟨m, hm, hpc, _, hcim, _, _⟩ := processFirebaseData_fields rawData today
  have hiff := keepInstance_isoDate today hv i o s ymd hdate hwf
  refine ⟨m, hm, ?_, ?_⟩
  · intro hlt
    have hk : keepInstance (todayNum today) (withId i (obj o)) = false := by
      cases h : keepInstance (todayNum today) (withId i (obj o)) with
      | false => rfl
      | true => exact absurd hlt (hiff.mp h)
    obtain ⟨hnone, hids⟩ := dropped_of_not_kept _ today i (obj o) hrec hk
    rw [hcim]
    refine ⟨hnone, ?_⟩
    intro c hc l hl e he
    rw [hpc] at hc
    obtain ⟨j, r, _, _, rfl⟩ := (mem_map_assemble _ _ _ c).mp hc
    rw [getProp_assembleClass_instances] at hl
    cases hl
    rw [List.mem_insertionSort] at he
    obtain ⟨x, hx, _, rfl⟩ := (mem_instancesBeforeSort _ _ _ e).mp he
    obtain ⟨j2, r2, _, _, rfl, _⟩ := (mem_futureClassInstances _ today x).mp hx
    rw [getProp_withTeacher_withId (by decide)]
    exact hids _ hx
  · intro heq
    have hk : keepInstance (todayNum today) (withId i (obj o)) = true := by
      apply hiff.mpr
      rw [heq]
      simp [calendarLT]
    have hmem : withId i (obj o) ∈ futureClassInstances (rawData.classInstances.getD []) today :=
      (mem_futureClassInstances _ today _).mpr ⟨i, obj o, hrec, rfl, rfl, hk⟩
    rw [hcim]
    refine ⟨(mapGet_future _ today _ _).mpr ⟨i, obj o, rfl, hrec, rfl, hk, rfl⟩, ?_⟩
    intro c hc hcid
    rw [hpc] at hc
    obtain ⟨j, r, _, _, rfl⟩ := (mem_map_assemble _ _ _ c).mp hc
    refine ⟨_, getProp_assembleClass_instances _ _ _, ?_⟩
    rw [List.mem_insertionSort]
    apply (mem_instancesBeforeSort _ _ _ _).mpr
    refine ⟨withId i (obj o), hmem, ?_, rfl⟩
    rw [getProp_assembleClass_withId (by decide) (by decide) (by decide)] at hcid
    rw [getProp_withId_ne (by decide)]
    exact hcid

theorem future_window_boundary_witness :
    ∃ m, processFirebaseData
        ⟨some [obj [("classTypeId", num 0)]],
          some [obj [("classId", num 0), ("date", str "2026-11-06")]], none, none⟩
        ⟨2026, 10, 6⟩ = .ok m ∧
      (calendarLT (2026, 11, 6) (JSDate.ymd ⟨2026, 10, 6⟩) →
        mapGet m.classInstanceMap (some (num ((0 : Nat) : Int))) = none ∧
        ∀ c ∈ m.processedClasses, ∀ l, getProp c "instances" = some (arr l) →
          ∀ e ∈ l, getProp e "id" ≠ some (num ((0 : Nat) : Int))) ∧
      ((2026, 11, 6) = JSDate.ymd ⟨2026, 10, 6⟩ →
        mapGet m.classInstanceMap (some (num ((0 : Nat) : Int))) =
          some (withId 0 (obj [("classId", num 0), ("date", str "2026-11-06")])) ∧
        ∀ c ∈ m.processedClasses,
          strictEq (getField "classId" [("classId", num 0), ("date", str "2026-11-06")])
            (getProp c "id") = true →
          ∃ l, getProp c "instances" = some (arr l) ∧
            withTeacher m.teacherMap
              (withId 0 (obj [("classId", num 0), ("date", str "2026-11-06")])) ∈ l) :=
  future_window_boundary
    ⟨some [obj [("classTypeId", num 0)]],
      some [obj [("classId", num 0), ("date", str "2026-11-06")]], none, none⟩
    ⟨2026, 10, 6⟩ (by decide) 0 [("classId", num 0), ("date", str "2026-11-06")] "2026-11-06"
    (2026, 11, 6) (by decide) (by decide) (by decide)

theorem truthy_ne_null (r : Val) (h : truthy r = true) : r ≠ null := by
  intro e
  subst e
  cases h

theorem indexesByPosition_clean (raw : List Val) :
    IndexesByPosition raw (mapById (cleanAndIndex raw)) := by
  refine ⟨?_, ?_, ?_⟩
  · intro i o h
    exact (mapGet_clean raw _ _).mpr ⟨i, obj o, rfl, h, rfl, rfl⟩
  · intro i h
    cases hg : mapGet (mapById (cleanAndIndex raw)) (some (num (i : Int))) with
    | none => rfl
    | some v =>
      obtain ⟨j, r, hj, hr, ht, _⟩ := (mapGet_clean raw _ v).mp hg
      simp only [Option.some.injEq, Val.num.injEq, Nat.cast_inj] at hj
      rw [← hj] at hr
      rcases h with h | h
      · rw [h] at hr
        cases hr
        cases ht
      · rw [h] at hr
        cases hr
  · intro k v h
    obtain ⟨i, r, hk, hr, ht, hv⟩ := (mapGet_clean raw k v).mp h
    exact ⟨i, r, hk, hr, truthy_ne_null r ht, hv, by rw [hv, getProp_withId_id]⟩

/-- C2: `classMap`, `teacherMap` and `classTypeMap` hold exactly the non-null records of their
raw arrays, each under its position in the full array and with `id` set to that position; every
entry of `classInstanceMap` has `id` equal to its position in the raw `classInstances` array. -/
theorem sparse_arrays_indexed_by_position (rawData : RawData) (today : JSDate) :
    ∃ m, processFirebaseData rawData today = .ok m ∧
      IndexesByPosition (rawData.classes.getD []) m.classMap ∧
      IndexesByPosition (rawData.teachers.getD []) m.teacherMap ∧
      IndexesByPosition (rawData.classTypes.getD []) m.classTypeMap ∧
      ∀ (k : JSVal) (v : Val), mapGet m.classInstanceMap k = some v →
        ∃ (i : Nat) (r : Val), k = some (num (i : Int)) ∧
          (rawData.classInstances.getD [])[i]? = some r ∧ r ≠ null ∧ v = withId i r ∧
          getProp v "id" = some (num (i : Int)) := by
  obtain ⟨m, hm, _, hcm, hcim, htm, hctm⟩ := processFirebaseData_fields rawData today
  refine ⟨m, hm, ?_, ?_, ?_, ?_⟩
  · rw [hcm]
    exact indexesByPosition_clean _
  · rw [htm]
    exact indexesByPosition_clean _
  · rw [hctm]
    exact indexesByPosition_clean _
  · intro k v h
    rw [hcim] at h
    obtain ⟨i, r, hk, hr, ht, _, hv⟩ := (mapGet_future _ today k v).mp h
    exact ⟨i, r, hk, hr, truthy_ne_null r ht, hv, by rw [hv, getProp_withId_id]⟩

theorem nodup_ids_future (raw : List Val) (today : JSDate) :
    ((futureClassInstances raw today).map (fun x => getProp x "id")).Nodup := by
  rw [futureClassInstances_eq, List.map_map]
  have h : ((fun x => getProp x "id") ∘ fun p : Nat × Val => withId p.1 p.2)
      = (fun n : Nat => (some (num (n : Int)) : JSVal)) ∘ Prod.fst := by
    funext p
    simp [getProp_withId_id]
  rw [h, ← List.map_map]
  apply List.Nodup.map _ (nodup_fst_filter_enum raw _)
  intro a b hab
  simpa using hab

theorem map_id_instancesBeforeSort (raw : List Val) (today : JSDate) (tm : JSMap) (cls : Val) :
    (instancesBeforeSort (futureClassInstances raw today) tm cls).map (fun e => getProp e "id") =
      ((futureClassInstances raw today).filter
        (fun x => strictEq (getProp x "classId") (getProp cls "id"))).map
        (fun x => getProp x "id") := by
  unfold instancesBeforeSort
  rw [List.map_map]
  apply List.map_congr_left
  intro x hx
  obtain ⟨j, r, _, _, rfl, _⟩ :=
    (mem_futureClassInstances raw today x).mp (List.mem_filter.mp hx).1
  exact getProp_withTeacher_withId (by decide) tm j r

/-- C3: the `instances` list of a processed class is a rearrangement of the entries of
`classInstanceMap` whose `classId` equals the class `id`, each with its teacher embedded; no two
entries share an `id`, and every entry's `id` is a key of `classInstanceMap`. -/
theorem instances_are_matching_map_entries (rawData : RawData) (today : JSDate) :
    ∃ m, processFirebaseData rawData today = .ok m ∧
      ∀ c ∈ m.processedClasses, ∃ l, getProp c "instances" = some (arr l) ∧
        l.Perm (((m.classInstanceMap.map Prod.snd).filter
          (fun x => strictEq (getProp x "classId") (getProp c "id"))).map
            (withTeacher m.teacherMap)) ∧
        (l.map (fun e => getProp e "id")).Nodup ∧
        ∀ e ∈ l, ∃ v, mapGet m.classInstanceMap (getProp e "id") = some v := by
  obtain ⟨m, hm, hpc, _, hcim, _, _⟩ := processFirebaseData_fields rawData today
  refine ⟨m, hm, ?_⟩
  intro c hc
  rw [hpc] at hc
  obtain ⟨j, r, _, _, rfl⟩ := (mem_map_assemble _ _ _ c).mp hc
  refine ⟨_, getProp_assembleClass_instances _ _ _, ?_, ?_, ?_⟩
  · rw [hcim, map_snd_mapById_future,
      getProp_assembleClass_withId (by decide) (by decide) (by decide)]
    exact List.perm_insertionSort _ _
  · have hperm := (List.perm_insertionSort dateLE
      (instancesBeforeSort (futureClassInstances (rawData.classInstances.getD []) today)
        m.teacherMap (withId j r))).map (fun e => getProp e "id")
    rw [hperm.nodup_iff, map_id_instancesBeforeSort]
    exact (nodup_ids_future _ today).sublist ((List.filter_sublist _).map _)
  · intro e he
    rw [List.mem_insertionSort] at he
    obtain ⟨x, hx, _, rfl⟩ := (mem_instancesBeforeSort _ _ _ e).mp he
    obtain ⟨j2, r2, hr2, ht2, rfl, hk2⟩ := (mem_futureClassInstances _ today x).mp hx
    rw [getProp_withTeacher_withId (by decide), getProp_withId_id, hcim]
    exact ⟨_, (mapGet_future _ today _ _).mpr ⟨j2, r2, rfl, hr2, ht2, hk2, rfl⟩⟩

theorem dateInteger_of_instance (raw : List Val) (today : JSDate) (tm : JSMap) (cls e : Val)
    (he : e ∈ instancesBeforeSort (futureClassInstances raw today) tm cls) :
    dateInteger e = some (dateNum e) := by
  obtain ⟨x, hx, _, rfl⟩ := (mem_instancesBeforeSort _ _ _ e).mp he
  obtain ⟨j, r, _, _, rfl, hk⟩ := (mem_futureClassInstances raw today x).mp hx
  unfold withId at hk ⊢
  obtain ⟨s, n, tn, hs, hn, _, _⟩ := (keepInstance_obj_iff _ _).mp hk
  simp [dateInteger, dateNum, getProp_withTeacher_ne (show "date" ≠ "teacher" by decide), hs, hn]

/-- C4: the `instances` list of every processed class is sorted non-decreasing by the
`YYYYMMDD` integer of the date, pairwise and hence for adjacent entries. The integer is the
Number that the comparator parses from the date, that is the double nearest to the digits;
for two entries with well-formed `YYYY-MM-DD` dates it is `Y * 10000 + M * 100 + D`, and the
earlier entry is on or before the later one in calendar order. -/
theorem instances_sorted_by_date (rawData : RawData) (today : JSDate) :
    ∃ m, processFirebaseData rawData today = .ok m ∧
      ∀ c ∈ m.processedClasses, ∃ l, getProp c "instances" = some (arr l) ∧
        l.Pairwise (fun a b => ∃ x y, dateInteger a = some x ∧ dateInteger b = some y ∧ x ≤ y) ∧
        l.Chain' (fun a b => ∃ x y, dateInteger a = some x ∧ dateInteger b = some y ∧ x ≤ y) ∧
        l.Pairwise (fun a b => ∀ sa sb ymda ymdb, getProp a "date" = some (str sa) →
          getProp b "date" = some (str sb) → parseIsoDate sa = some ymda →
          parseIsoDate sb = some ymdb →
          dateInteger a = some ((ymda.1 * 10000 + ymda.2.1 * 100 + ymda.2.2 : Nat) : Int) ∧
          dateInteger b = some ((ymdb.1 * 10000 + ymdb.2.1 * 100 + ymdb.2.2 : Nat) : Int) ∧
          (calendarLT ymda ymdb ∨ ymda = ymdb)) := by
  obtain ⟨m, hm, hpc, _, _, _, _⟩ := processFirebaseData_fields rawData today
  refine ⟨m, hm, ?_⟩
  intro c hc
  rw [hpc] at hc
  obtain ⟨j, r, _, _, rfl⟩ := (mem_map_assemble _ _ _ c).mp hc
  have hp : ((instancesBeforeSort (futureClassInstances (rawData.classInstances.getD []) today)
      m.teacherMap (withId j r)).insertionSort dateLE).Pairwise
      (fun a b => ∃ x y, dateInteger a = some x ∧ dateInteger b = some y ∧ x ≤ y) := by
    refine List.Pairwise.imp_of_mem ?_ (sorted_insertionSort_dateLE _)
    intro a b ha hb hab
    rw [List.mem_insertionSort] at ha hb
    exact ⟨_, _, dateInteger_of_instance _ today _ _ a ha,
      dateInteger_of_instance _ today _ _ b hb, hab⟩
  refine ⟨_, getProp_assembleClass_instances _ _ _, hp, hp.chain', ?_⟩
  refine hp.imp ?_
  rintro a b ⟨x, y, hx, hy, hxy⟩ sa sb ⟨Y1, M1, D1⟩ ⟨Y2, M2, D2⟩ ha hb h1 h2
  obtain ⟨p1, hM1, hD1, _⟩ := parseInt_isoDate sa Y1 M1 D1 h1
  obtain ⟨p2, hM2, hD2, _⟩ := parseInt_isoDate sb Y2 M2 D2 h2
  have da : dateInteger a = some ((Y1 * 10000 + M1 * 100 + D1 : Nat) : Int) := by
    simp only [dateInteger, ha]
    exact p1
  have db : dateInteger b = some ((Y2 * 10000 + M2 * 100 + D2 : Nat) : Int) := by
    simp only [dateInteger, hb]
    exact p2
  refine ⟨da, db, ?_⟩
  rw [da] at hx
  rw [db] at hy
  cases hx
  cases hy
  simp only [calendarLT, Prod.mk.injEq]
  omega

/-- A concrete run: two instances of class 0 whose dates are digit strings that differ only
beyond the precision of a double have the same key, `2 ^ 53`, and stay in position order,
although the first spells the larger integer. -/
theorem rounded_keys_run_example :
    ∃ m, processFirebaseData
        ⟨some [obj [("description", str "Hatha")]],
          some [obj [("classId", num 0), ("date", str "9007199254740993")],
            obj [("classId", num 0), ("date", str "9007199254740992")]], none, none⟩
        ⟨2026, 10, 6⟩ = .ok m ∧
      m.processedClasses.map (fun c => getProp c "instances") =
        [some (arr [obj [("classId", num 0), ("date", str "9007199254740993"), ("id", num 0),
            ("teacher", unknownTeacher)],
          obj [("classId", num 0), ("date", str "9007199254740992"), ("id", num 1),
            ("teacher", unknownTeacher)]])] ∧
      parseInt "9007199254740993".data = some 9007199254740992 ∧
      parseInt "9007199254740992".data = some 9007199254740992 :=
  ⟨_, processFirebaseData_eq _ _, by decide, by decide, by decide⟩

theorem orElse_withId (i : Nat) (r fallback : Val) : orElse (some (withId i r)) fallback = withId i r :=
  rfl

theorem mapGet_clean_at (raw : List Val) (i : Nat) :
    mapGet (mapById (cleanAndIndex raw)) (some (num (i : Int))) =
      match raw[i]? with
      | some t => if truthy t = true then some (withId i t) else none
      | none => none := by
  cases hr : raw[i]? with
  | none =>
    simp only
    exact (indexesByPosition_clean raw).2.1 i (Or.inr hr)
  | some t =>
    simp only
    by_cases ht : truthy t = true
    · rw [if_pos ht]
      exact (mapGet_clean raw _ _).mpr ⟨i, t, rfl, hr, ht, rfl⟩
    · rw [if_neg ht]
      cases hg : mapGet (mapById (cleanAndIndex raw)) (some (num (i : Int))) with
      | none => rfl
      | some v =>
        obtain ⟨j, r, hj, hr2, ht2, _⟩ := (mapGet_clean raw _ v).mp hg
        simp only [Option.some.injEq, Val.num.injEq, Nat.cast_inj] at hj
        rw [← hj, hr] at hr2
        cases hr2
        exact absurd ht2 ht

/-- C5: the Vinyasa scenario. One class at position 1 (position 0 is `null`), one instance
dated on the reference day and one dated earlier: the pass returns one processed class with
`id` 1 and `price` 20, whose only instance is the one at position 0, with the teacher at
position 0 embedded, or the fallback teacher when there is none. -/
theorem scenario_vinyasa (today : JSDate) (hv : today.Valid) (sToday sYesterday : String)
    (past : Nat × Nat × Nat) (hT : parseIsoDate sToday = some today.ymd)
    (hY : parseIsoDate sYesterday = some past) (hpast : calendarLT past today.ymd)
    (classTypes teachers : Option (List Val)) :
    ∃ m c e, processFirebaseData
        ⟨some [null, obj [("description", str "Vinyasa"), ("classTypeId", num 0),
            ("daysOfWeek", arr [str "Monday"]), ("time", str "09:00"), ("price", num 20)]],
          some [obj [("classId", num 1), ("teacherId", num 0), ("date", str sToday)],
            obj [("classId", num 1), ("teacherId", num 0), ("date", str sYesterday)]],
          classTypes, teachers⟩ today = .ok m ∧
      m.processedClasses = [c] ∧
      getProp c "id" = some (num 1) ∧
      getProp c "price" = some (num 20) ∧
      getProp c "instances" = some (arr [e]) ∧
      getProp e "id" = some (num 0) ∧
      getProp e "date" = some (str sToday) ∧
      getProp e "teacher" = some
        (match (teachers.getD [])[0]? with
         | some t => if truthy t = true then withId 0 t else unknownTeacher
         | none => unknownTeacher) := by
  obtain ⟨m, hm, hpc, _, _, htm, _⟩ := processFirebaseData_fields
    ⟨some [null, obj [("description", str "Vinyasa"), ("classTypeId", num 0),
        ("daysOfWeek", arr [str "Monday"]), ("time", str "09:00"), ("price", num 20)]],
      some [obj [("classId", num 1), ("teacherId", num 0), ("date", str sToday)],
        obj [("classId", num 1), ("teacherId", num 0), ("date", str sYesterday)]],
      classTypes, teachers⟩ today
  have hk0 := (keepInstance_isoDate today hv 0
    [("classId", num 1), ("teacherId", num 0), ("date", str sToday)] sToday today.ymd rfl
    hT).mpr (by simp [calendarLT])
  have hk1 : keepInstance (todayNum today) (withId 1
      (obj [("classId", num 1), ("teacherId", num 0), ("date", str sYesterday)])) = false := by
    cases h : keepInstance (todayNum today) (withId 1
      (obj [("classId", num 1), ("teacherId", num 0), ("date", str sYesterday)])) with
    | false => rfl
    | true =>
      exact absurd hpast ((keepInstance_isoDate today hv 1
        [("classId", num 1), ("teacherId", num 0), ("date", str sYesterday)] sYesterday past rfl
        hY).mp h)
  have hfut : futureClassInstances
      [obj [("classId", num 1), ("teacherId", num 0), ("date", str sToday)],
        obj [("classId", num 1), ("teacherId", num 0), ("date", str sYesterday)]] today =
      [withId 0 (obj [("classId", num 1), ("teacherId", num 0), ("date", str sToday)])] := by
    rw [futureClassInstances_eq]
    simp only [List.enum, List.enumFrom, List.filter_cons, List.filter_nil, hk0, hk1, truthy,
      Bool.and_self, Bool.and_false, if_true, List.map_cons, List.map_nil]
    rfl
  simp only [Option.getD_some] at hpc
  rw [hfut] at hpc
  refine ⟨m, _, _, hm, hpc, rfl, rfl, rfl, rfl, rfl, ?_⟩
  rw [getProp_withTeacher_teacher, htm]
  have hid : getProp (withId 0 (obj [("classId", num 1), ("teacherId", num 0),
      ("date", str sToday)])) "teacherId" = some (num ((0 : Nat) : Int)) := rfl
  rw [hid, mapGet_clean_at]
  cases hr : (teachers.getD [])[0]? with
  | none => rfl
  | some t =>
    simp only [Option.getD_some] at hr ⊢
    by_cases ht : truthy t = true
    · simp only [if_pos ht]
      rfl
    · simp only [if_neg ht]
      rfl

theorem scenario_vinyasa_witness :
    ∃ m c e, processFirebaseData
        ⟨some [null, obj [("description", str "Vinyasa"), ("classTypeId", num 0),
            ("daysOfWeek", arr [str "Monday"]), ("time", str "09:00"), ("price", num 20)]],
          some [obj [("classId", num 1), ("teacherId", num 0), ("date", str "2026-11-06")],
            obj [("classId", num 1), ("teacherId", num 0), ("date", str "2026-11-05")]],
          none, some [obj [("name", str "Asha")]]⟩ ⟨2026, 10, 6⟩ = .ok m ∧
      m.processedClasses = [c] ∧
      getProp c "id" = some (num 1) ∧
      getProp c "price" = some (num 20) ∧
      getProp c "instances" = some (arr [e]) ∧
      getProp e "id" = some (num 0) ∧
      getProp e "date" = some (str "2026-11-06") ∧
      getProp e "teacher" = some
        (match ((some [obj [("name", str "Asha")]] : Option (List Val)).getD [])[0]? with
         | some t => if truthy t = true then withId 0 t else unknownTeacher
         | none => unknownTeacher) :=
  scenario_vinyasa ⟨2026, 10, 6⟩ (by decide) "2026-11-06" "2026-11-05" (2026, 11, 5)
    (by decide) (by decide) (by decide) none (some [obj [("name", str "Asha")]])

/-- C6, as stated, fails: the date `20991231` is not of the form `YYYY-MM-DD`, yet on the
reference day 2026-11-06 the record is a key of `classInstanceMap` and is in the `instances`
list of its class. -/
theorem malformed_date_kept :
    parseIsoDate "20991231" = none ∧
    ∃ m, processFirebaseData
        ⟨some [obj [("description", str "Vinyasa")]],
          some [obj [("classId", num 0), ("date", str "20991231")]], none, none⟩
        ⟨2026, 10, 6⟩ = .ok m ∧
      mapGet m.classInstanceMap (some (num 0)) =
        some (obj [("classId", num 0), ("date", str "20991231"), ("id", num 0)]) ∧
      m.processedClasses.map (fun c => getProp c "instances") =
        [some (arr [obj [("classId", num 0), ("date", str "20991231"), ("id", num 0),
          ("teacher", unknownTeacher)]])] :=
  ⟨by decide, _, processFirebaseData_eq _ _, by decide, by decide⟩

/-- C6, amended: a record whose date is missing, is not a string, or is a string that is not
of the form `YYYY-MM-DD` and whose hyphen-free text `parseInt` does not read as an integer at
or above `todayNum`, is absent from `classInstanceMap` and from every `instances` list, and
the pass returns a model. -/
theorem unparseable_date_dropped (rawData : RawData) (today : JSDate) (i : Nat) (o : Obj)
    (hrec : (rawData.classInstances.getD [])[i]? = some (obj o))
    (hbad : getField "date" o = none ∨
      (∃ v, getField "date" o = some v ∧ ∀ s, v ≠ str s) ∨
      (∃ s, getField "date" o = some (str s) ∧ parseIsoDate s = none ∧
        ¬ ∃ n tn, parseInt (removeHyphens s.data) = some n ∧ todayNum today = some tn ∧
          tn ≤ n)) :
    ∃ m, processFirebaseData rawData today = .ok m ∧
      mapGet m.classInstanceMap (some (num (i : Int))) = none ∧
      ∀ c ∈ m.processedClasses, ∀ l, getProp c "instances" = some (arr l) →
        ∀ e ∈ l, getProp e "id" ≠ some (num (i : Int)) := by
  obtain ⟨m, hm, hpc, _, hcim, _, _⟩ := processFirebaseData_fields rawData today
  have hk : keepInstance (todayNum today) (withId i (obj o)) = false := by
    cases h : keepInstance (todayNum today) (withId i (obj o)) with
    | false => rfl
    | true =>
      exfalso
      unfold withId at h
      obtain ⟨s, n, tn, hs, hn, htn, hle⟩ := (keepInstance_obj_iff _ _).mp h
      simp only [spread] at hs
      rw [getField_setField_ne (by decide)] at hs
      rcases hbad with h1 | ⟨v, hv, hns⟩ | ⟨s2, hs2, _, hno⟩
      · rw [h1] at hs
        cases hs
      · rw [hv] at hs
        cases hs
        exact hns s rfl
      · rw [hs2] at hs
        cases hs
        exact hno ⟨n, tn, hn, htn, hle⟩
  obtain ⟨hnone, hids⟩ := dropped_of_not_kept _ today i (obj o) hrec hk
  refine ⟨m, hm, by rw [hcim]; exact hnone, ?_⟩
  intro c hc l hl e he
  rw [hpc] at hc
  obtain ⟨j, r, _, _, rfl⟩ := (mem_map_assemble _ _ _ c).mp hc
  rw [getProp_assembleClass_instances] at hl
  cases hl
  rw [List.mem_insertionSort] at he
  obtain ⟨x, hx, _, rfl⟩ := (mem_instancesBeforeSort _ _ _ e).mp he
  obtain ⟨j2, r2, _, _, rfl, _⟩ := (mem_futureClassInstances _ today x).mp hx
  rw [getProp_withTeacher_withId (by decide)]
  exact hids _ hx

theorem unparseable_date_dropped_witness :
    ∃ m, processFirebaseData
        ⟨some [obj [("description", str "Vinyasa")]],
          some [obj [("classId", num 0), ("date", str "next week")]], none, none⟩
        ⟨2026, 10, 6⟩ = .ok m ∧
      mapGet m.classInstanceMap (some (num ((0 : Nat) : Int))) = none ∧
      ∀ c ∈ m.processedClasses, ∀ l, getProp c "instances" = some (arr l) →
        ∀ e ∈ l, getProp e "id" ≠ some (num ((0 : Nat) : Int)) :=
  unparseable_date_dropped
    ⟨some [obj [("description", str "Vinyasa")]],
      some [obj [("classId", num 0), ("date", str "next week")]], none, none⟩
    ⟨2026, 10, 6⟩ 0 [("classId", num 0), ("date", str "next week")] (by decide)
    (Or.inr (Or.inr ⟨"next week", by decide, by decide, by
      have hnone : parseInt (removeHyphens "next week".data) = none := by decide
      rintro ⟨n, tn, hn, _, _⟩
      rw [hnone] at hn
      cases hn⟩))

theorem orElse_mapGet_clean (raw : List Val) (k : JSVal) (fallback : Val) :
    orElse (mapGet (mapById (cleanAndIndex raw)) k) fallback =
      match mapGet (mapById (cleanAndIndex raw)) k with
      | some t => t
      | none => fallback := by
  cases hg : mapGet (mapById (cleanAndIndex raw)) k with
  | none => rfl
  | some v =>
    obtain ⟨i, r, _, _, _, rfl⟩ := (mapGet_clean raw k v).mp hg
    rfl

/-- C7: the `classType` of a processed class is the `classTypeMap` entry under its
`classTypeId` when that key is present, and the fallback `Unknown Type` object otherwise; the
pass returns a model in either case. -/
theorem classType_resolved_or_fallback (rawData : RawData) (today : JSDate) :
    ∃ m, processFirebaseData rawData today = .ok m ∧
      ∀ c ∈ m.processedClasses,
        getProp c "classType" = some
          (match mapGet m.classTypeMap (getProp c "classTypeId") with
           | some t => t
           | none => obj [("name", str "Unknown Type"), ("description", str "")]) := by
  obtain ⟨m, hm, hpc, _, _, _, hctm⟩ := processFirebaseData_fields rawData today
  refine ⟨m, hm, ?_⟩
  intro c hc
  rw [hpc] at hc
  obtain ⟨j, r, _, _, rfl⟩ := (mem_map_assemble _ _ _ c).mp hc
  rw [getProp_assembleClass_classType,
    getProp_assembleClass_withId (by decide) (by decide) (by decide), hctm,
    orElse_mapGet_clean]
  rfl

/-- C8: every entry of every `instances` list has a `teacher` field: the `teacherMap` entry
under its `teacherId` when that key is present, and otherwise the fallback whose `name` is
`Unknown Teacher`. Every `classInstanceMap` entry of the class is in the list whatever its
`teacherId`, and the pass returns a model. -/
theorem teacher_resolved_or_fallback (rawData : RawData) (today : JSDate) :
    getProp unknownTeacher "name" = some (str "Unknown Teacher") ∧
    ∃ m, processFirebaseData rawData today = .ok m ∧
      ∀ c ∈ m.processedClasses, ∃ l, getProp c "instances" = some (arr l) ∧
        (∀ e ∈ l, getProp e "teacher" = some
          (match mapGet m.teacherMap (getProp e "teacherId") with
           | some t => t
           | none => unknownTeacher)) ∧
        (∀ x ∈ m.classInstanceMap.map Prod.snd,
          strictEq (getProp x "classId") (getProp c "id") = true →
            ∃ e ∈ l, getProp e "id" = getProp x "id") := by
  refine ⟨rfl, ?_⟩
  obtain ⟨m, hm, hpc, _, hcim, htm, _⟩ := processFirebaseData_fields rawData today
  refine ⟨m, hm, ?_⟩
  intro c hc
  rw [hpc] at hc
  obtain ⟨j, r, _, _, rfl⟩ := (mem_map_assemble _ _ _ c).mp hc
  refine ⟨_, getProp_assembleClass_instances _ _ _, ?_, ?_⟩
  · intro e he
    rw [List.mem_insertionSort] at he
    obtain ⟨x, hx, _, rfl⟩ := (mem_instancesBeforeSort _ _ _ e).mp he
    obtain ⟨j2, r2, _, _, rfl, _⟩ := (mem_futureClassInstances _ today x).mp hx
    rw [getProp_withTeacher_teacher, getProp_withTeacher_withId (by decide), htm,
      orElse_mapGet_clean]
  · intro x hx hcid
    rw [hcim, map_snd_mapById_future] at hx
    rw [getProp_assembleClass_withId (by decide) (by decide) (by decide)] at hcid
    obtain ⟨j2, r2, _, _, rfl, _⟩ := (mem_futureClassInstances _ today x).mp hx
    refine ⟨withTeacher m.teacherMap (withId j2 r2), ?_, ?_⟩
    · rw [List.mem_insertionSort]
      exact (mem_instancesBeforeSort _ _ _ _).mpr ⟨_, hx, hcid, rfl⟩
    · exact getProp_withTeacher_withId (by decide) _ _ _

/-- C9: an absent array is treated as the empty array, the pass always returns a model, and
with all four arrays absent the model has no processed class and four empty maps. -/
theorem absent_arrays_are_empty (rawData : RawData) (today : JSDate) :
    processFirebaseData rawData today =
      processFirebaseData
        ⟨some (rawData.classes.getD []), some (rawData.classInstances.getD []),
          some (rawData.classTypes.getD []), some (rawData.teachers.getD [])⟩ today ∧
    (∃ m, processFirebaseData rawData today = .ok m) ∧
    processFirebaseData ⟨none, none, none, none⟩ today =
      .ok { processedClasses := [], classMap := [], classInstanceMap := [], teacherMap := [],
            classTypeMap := [] } :=
  ⟨rfl, ⟨_, processFirebaseData_eq rawData today⟩, rfl⟩

/-- C10: every non-null class record at position `i` yields a processed class with `id` `i`
whose `daysOfWeek` is the record's own when that is an array and the empty array otherwise,
and whose `description`, `level`, `price`, `duration`, `room`, `time`, `capacity` and
`classTypeId` are those of the record; every processed class arises this way. -/
theorem class_fields_carried_over (rawData : RawData) (today : JSDate) :
    ∃ m, processFirebaseData rawData today = .ok m ∧
      (∀ c ∈ m.processedClasses, ∃ (i : Nat) (r : Val),
        (rawData.classes.getD [])[i]? = some r ∧ r ≠ null ∧
        getProp c "id" = some (num (i : Int)) ∧
        getProp c "daysOfWeek" = some
          (match getField "daysOfWeek" (spread r) with
           | some (arr days) => arr days
           | _ => arr []) ∧
        ∀ k ∈ ["description", "level", "price", "duration", "room", "time", "capacity",
            "classTypeId"], getProp c k = getField k (spread r)) ∧
      (∀ (i : Nat) (o : Obj), (rawData.classes.getD [])[i]? = some (obj o) →
        ∃ c ∈ m.processedClasses,
          getProp c "id" = some (num (i : Int)) ∧
          getProp c "daysOfWeek" = some
            (match getField "daysOfWeek" o with
             | some (arr days) => arr days
             | _ => arr []) ∧
          ∀ k ∈ ["description", "level", "price", "duration", "room", "time", "capacity",
              "classTypeId"], getProp c k = getField k o) := by
  obtain ⟨m, hm, hpc, _, _, _, _⟩ := processFirebaseData_fields rawData today
  have key : ∀ (j : Nat) (r : Val) (ins : List Val),
      getProp (assembleClass m.classTypeMap (withId j r) ins) "id" = some (num (j : Int)) ∧
      getProp (assembleClass m.classTypeMap (withId j r) ins) "daysOfWeek" = some
        (match getField "daysOfWeek" (spread r) with
         | some (arr days) => arr days
         | _ => arr []) ∧
      ∀ k ∈ ["description", "level", "price", "duration", "room", "time", "capacity",
          "classTypeId"],
        getProp (assembleClass m.classTypeMap (withId j r) ins) k = getField k (spread r) := by
    intro j r ins
    refine ⟨?_, ?_, ?_⟩
    · rw [getProp_assembleClass_withId (by decide) (by decide) (by decide), getProp_withId_id]
    · rw [getProp_assembleClass_daysOfWeek]
      simp only [daysOfWeekOf, withId, getProp, getField_setField_ne
        (show "daysOfWeek" ≠ "id" by decide)]
    · intro k hk
      have h4 : k ≠ "daysOfWeek" ∧ k ≠ "instances" ∧ k ≠ "classType" ∧ k ≠ "id" := by
        simp only [List.mem_cons, List.mem_singleton, List.not_mem_nil, or_false] at hk
        rcases hk with rfl | rfl | rfl | rfl | rfl | rfl | rfl | rfl <;> decide
      rw [getProp_assembleClass_withId h4.1 h4.2.1 h4.2.2.1]
      simp only [withId, getProp, getField_setField_ne h4.2.2.2]
  refine ⟨m, hm, ?_, ?_⟩
  · intro c hc
    rw [hpc] at hc
    obtain ⟨j, r, hr, ht, rfl⟩ := (mem_map_assemble _ _ _ c).mp hc
    exact ⟨j, r, hr, truthy_ne_null r ht, key j r _⟩
  · intro i o hr
    have hmem := (mem_map_assemble (rawData.classes.getD []) m.classTypeMap
      (fun cls => (instancesBeforeSort
        (futureClassInstances (rawData.classInstances.getD []) today) m.teacherMap
        cls).insertionSort dateLE) _).mpr ⟨i, obj o, hr, rfl, rfl⟩
    rw [← hpc] at hmem
    exact ⟨_, hmem, key i (obj o) _⟩

/-- A concrete run: two instances of class 0 stored in descending date order come out in
ascending date order, and an instance dated before the reference day is left out. -/
theorem sorted_run_example :
    ∃ m, processFirebaseData
        ⟨some [obj [("description", str "Hatha")]],
          some [obj [("classId", num 0), ("date", str "2026-12-02")],
            obj [("classId", num 0), ("date", str "2026-11-07")],
            obj [("classId", num 0), ("date", str "2026-11-05")]], none, none⟩
        ⟨2026, 10, 6⟩ = .ok m ∧
      m.classInstanceMap.map Prod.fst = [some (num 0), some (num 1)] ∧
      m.processedClasses.map (fun c => getProp c "instances") =
        [some (arr [obj [("classId", num 0), ("date", str "2026-11-07"), ("id", num 1),
            ("teacher", unknownTeacher)],
          obj [("classId", num 0), ("date", str "2026-12-02"), ("id", num 0),
            ("teacher", unknownTeacher)]])] :=
  ⟨_, processFirebaseData_eq _ _, by decide, by decide⟩

/-! ## The cart -/

theorem mem_addToCart (x y : InstanceId) (L : List InstanceId) :
    y ∈ (addToCart x L).1 ↔ y ∈ L ∨ y = x := by
  unfold addToCart
  by_cases h : L.contains x = true
  · rw [if_pos h]
    have hx : x ∈ L := by simpa using h
    constructor
    · intro hy
      exact Or.inl hy
    · rintro (hy | rfl)
      · exact hy
      · exact hx
  · rw [if_neg h]
    simp

theorem addToCart_of_mem (x : InstanceId) (L : List InstanceId) (h : x ∈ L) :
    addToCart x L = (L, ⟨"Already in Cart", "This class session is already in your cart."⟩) := by
  unfold addToCart
  rw [if_pos (by simpa using h)]

theorem addToCart_of_not_mem (x : InstanceId) (L : List InstanceId) (h : x ∉ L) :
    addToCart x L =
      (L ++ [x], ⟨"Added to Cart", "Class session added successfully."⟩) := by
  unfold addToCart
  rw [if_neg (by simpa using h)]

theorem nodup_addToCart (x : InstanceId) (L : List InstanceId) (h : L.Nodup) :
    (addToCart x L).1.Nodup := by
  by_cases hx : x ∈ L
  · rw [addToCart_of_mem x L hx]
    exact h
  · rw [addToCart_of_not_mem x L hx]
    exact List.Nodup.append h (List.nodup_singleton x) (by simpa using hx)

theorem nodup_applyOp (L : List InstanceId) (op : CartOp) (h : L.Nodup) :
    (applyOp L op).Nodup := by
  cases op with
  | add x => exact nodup_addToCart x L h
  | remove x => exact h.filter _
  | clear => exact List.nodup_nil

theorem nodup_runOpsFrom (L : List InstanceId) (ops : List CartOp) (h : L.Nodup) :
    (runOpsFrom L ops).Nodup := by
  induction ops generalizing L with
  | nil => exact h
  | cons op rest ih => exact ih (applyOp L op) (nodup_applyOp L op h)

theorem count_addToCart_self (x : InstanceId) (L : List InstanceId) (h : L.Nodup) :
    (addToCart x L).1.count x = 1 :=
  List.count_eq_one_of_mem (nodup_addToCart x L h) ((mem_addToCart x x L).mpr (Or.inr rfl))

/-- C11: applying the update of `addToCart` twice with the same identifier gives the list
of one application, the second application takes the `Already in Cart` branch, an update
with a member returns the list unchanged through that branch, and on every cart list (a
list that the cart operations can produce, hence without duplicates) the result holds the
identifier exactly once. -/
theorem addToCart_idempotent (L : List InstanceId) (x : InstanceId) :
    (addToCart x (addToCart x L).1).1 = (addToCart x L).1 ∧
    (addToCart x (addToCart x L).1).2.title = "Already in Cart" ∧
    (x ∈ L → addToCart x L =
      (L, ⟨"Already in Cart", "This class session is already in your cart."⟩)) ∧
    (L.Nodup → (addToCart x L).1.count x = 1) ∧
    (∀ ops : List CartOp, (addToCart x (runOps ops)).1.count x = 1) := by
  have hmem : x ∈ (addToCart x L).1 := (mem_addToCart x x L).mpr (Or.inr rfl)
  refine ⟨?_, ?_, addToCart_of_mem x L, count_addToCart_self x L, ?_⟩
  · rw [addToCart_of_mem x _ hmem]
  · rw [addToCart_of_mem x _ hmem]
  · intro ops
    exact count_addToCart_self x _ (nodup_runOpsFrom [] ops List.nodup_nil)

/-- C12: starting from the empty cart, after every finite sequence of `addToCart`,
`removeFromCart` and `clearCart` the cart list has no identifier more than once. -/
theorem cart_never_has_duplicates (ops : List CartOp) :
    (runOps ops).Nodup ∧ ∀ x : InstanceId, (runOps ops).count x ≤ 1 := by
  have h := nodup_runOpsFrom [] ops List.nodup_nil
  exact ⟨h, fun x => List.nodup_iff_count_le_one.mp h x⟩

/-- C13: the update of `addToCart` with an identifier that is not a member returns the list
with the identifier appended at the end, through the `Added to Cart` branch; adding 7 to
the empty cart gives `[7]`, and adding 7 again still gives `[7]`. -/
theorem addToCart_appends (L : List InstanceId) (x : InstanceId) (h : x ∉ L) :
    addToCart x L = (L ++ [x], ⟨"Added to Cart", "Class session added successfully."⟩) ∧
    (addToCart 7 []).1 = [7] ∧ (addToCart 7 (addToCart 7 []).1).1 = [7] :=
  ⟨addToCart_of_not_mem x L h, by decide, by decide⟩

theorem addToCart_appends_witness :
    (3 : InstanceId) ∉ ([5, 8] : List InstanceId) ∧
    addToCart 3 [5, 8] =
      ([5, 8] ++ [3], ⟨"Added to Cart", "Class session added successfully."⟩) ∧
    (addToCart 7 []).1 = [7] ∧ (addToCart 7 (addToCart 7 []).1).1 = [7] :=
  ⟨by decide, addToCart_appends [5, 8] 3 (by decide)⟩

/-- C14: the update of `removeFromCart` with an identifier that is not a member returns the
list unchanged. -/
theorem removeFromCart_absent (L : List InstanceId) (x : InstanceId) (h : x ∉ L) :
    (removeFromCart x L).1 = L := by
  unfold removeFromCart
  simp only
  rw [List.filter_eq_self]
  intro a ha
  have hne : a ≠ x := fun e => h (e ▸ ha)
  simpa using hne

theorem removeFromCart_absent_witness :
    (3 : InstanceId) ∉ ([5, 8] : List InstanceId) ∧ (removeFromCart 3 [5, 8]).1 = [5, 8] :=
  ⟨by decide, removeFromCart_absent [5, 8] 3 (by decide)⟩

/-- C15: a membership query on the list left by a mutation reflects it. After `addToCart`
the identifier is in the cart. After `removeFromCart` it is not: no occurrence is left, and
the other members keep their number and order. After `clearCart` the list is empty and no
identifier is in the cart. -/
theorem queries_reflect_mutations (L : List InstanceId) (x : InstanceId) :
    isInCart (addToCart x L).1 x = true ∧
    isInCart (removeFromCart x L).1 x = false ∧
    (removeFromCart x L).1.count x = 0 ∧
    (removeFromCart x L).1.Sublist L ∧
    (∀ y : InstanceId, y ≠ x → (removeFromCart x L).1.count y = L.count y) ∧
    clearCart L = [] ∧
    (∀ y : InstanceId, isInCart (clearCart L) y = false) := by
  have hnot : x ∉ (removeFromCart x L).1 := by
    unfold removeFromCart
    simp
  refine ⟨?_, ?_, List.count_eq_zero_of_not_mem hnot, List.filter_sublist _, ?_, rfl, ?_⟩
  · unfold isInCart
    simpa using (mem_addToCart x x L).mpr (Or.inr rfl)
  · unfold isInCart
    simpa using hnot
  · intro y hy
    unfold removeFromCart
    simp only
    rw [List.count_filter]
    simpa using hy
  · intro y
    rfl

/-! ## Email validation -/

theorem regexTest_nil (s : List Char) : regexTest [] s = true ↔ s = [] := by
  cases s <;> simp [regexTest]

theorem regexTest_char (c : Char) (rest : List RegexItem) (s : List Char) :
    regexTest (.char c :: rest) s = true ↔ ∃ t, s = c :: t ∧ regexTest rest t = true := by
  cases s with
  | nil => simp [regexTest]
  | cons x xs =>
    simp only [regexTest, Bool.and_eq_true, beq_iff_eq, List.cons.injEq]
    constructor
    · rintro ⟨rfl, h⟩
      exact ⟨xs, ⟨rfl, rfl⟩, h⟩
    · rintro ⟨t, ⟨rfl, rfl⟩, h⟩
      exact ⟨rfl, h⟩

theorem regexTest_plus (p : Char → Bool) (rest : List RegexItem) (s : List Char) :
    regexTest (.plus p :: rest) s = true ↔
      ∃ a t, a ≠ [] ∧ (∀ c ∈ a, p c = true) ∧ s = a ++ t ∧ regexTest rest t = true := by
  induction s with
  | nil =>
    simp only [regexTest]
    constructor
    · intro h
      cases h
    · rintro ⟨a, t, ha, _, hs, _⟩
      cases a with
      | nil => exact absurd rfl ha
      | cons y ys => cases hs
  | cons x xs ih =>
    simp only [regexTest, Bool.and_eq_true, Bool.or_eq_true]
    constructor
    · rintro ⟨hx, h | h⟩
      · refine ⟨[x], xs, by simp, ?_, rfl, h⟩
        intro c hc
        rw [List.mem_singleton.mp hc]
        exact hx
      · obtain ⟨a, t, _, hall, hs, ht⟩ := ih.mp h
        refine ⟨x :: a, t, by simp, ?_, by rw [hs]; rfl, ht⟩
        intro c hc
        rcases List.mem_cons.mp hc with rfl | hc
        · exact hx
        · exact hall c hc
    · rintro ⟨a, t, ha, hall, hs, ht⟩
      cases a with
      | nil => exact absurd rfl ha
      | cons y ys =>
        simp only [List.cons_append, List.cons.injEq] at hs
        obtain ⟨rfl, rfl⟩ := hs
        refine ⟨hall x (List.mem_cons_self _ _), ?_⟩
        by_cases hys : ys = []
        · subst hys
          exact Or.inl ht
        · exact Or.inr (ih.mpr ⟨ys, t, hys,
            fun c hc => hall c (List.mem_cons_of_mem _ hc), rfl, ht⟩)

/-- The pattern accepts exactly `a@b.c` with `a`, `b`, `c` non-empty runs of `[^\s@]`. -/
theorem validateEmail_iff (text : String) :
    validateEmail text = true ↔
      ∃ a b c : List Char, a ≠ [] ∧ b ≠ [] ∧ c ≠ [] ∧
        (∀ ch ∈ a, notSpaceOrAt ch = true) ∧ (∀ ch ∈ b, notSpaceOrAt ch = true) ∧
        (∀ ch ∈ c, notSpaceOrAt ch = true) ∧ text.data = a ++ '@' :: (b ++ '.' :: c) := by
  unfold validateEmail emailRegex
  rw [regexTest_plus]
  constructor
  · rintro ⟨a, t, ha, halla, hs, ht⟩
    obtain ⟨t2, rfl, ht2⟩ := (regexTest_char _ _ _).mp ht
    obtain ⟨b, t3, hb, hallb, rfl, ht3⟩ := (regexTest_plus _ _ _).mp ht2
    obtain ⟨t4, rfl, ht4⟩ := (regexTest_char _ _ _).mp ht3
    obtain ⟨c, t5, hc, hallc, rfl, ht5⟩ := (regexTest_plus _ _ _).mp ht4
    rw [(regexTest_nil _).mp ht5, List.append_nil] at hs
    exact ⟨a, b, c, ha, hb, hc, halla, hallb, hallc, hs⟩
  · rintro ⟨a, b, c, ha, hb, hc, halla, hallb, hallc, hs⟩
    refine ⟨a, _, ha, halla, hs, ?_⟩
    refine (regexTest_char _ _ _).mpr ⟨_, rfl, ?_⟩
    refine (regexTest_plus _ _ _).mpr ⟨b, _, hb, hallb, rfl, ?_⟩
    refine (regexTest_char _ _ _).mpr ⟨_, rfl, ?_⟩
    exact (regexTest_plus _ _ _).mpr ⟨c, [], hc, hallc, by simp, (regexTest_nil _).mpr rfl⟩

theorem notSpaceOrAt_iff (ch : Char) :
    notSpaceOrAt ch = true ↔ isJSWhitespace ch = false ∧ ch ≠ '@' := by
  simp [notSpaceOrAt]

/-- C18: `validateEmail` accepts a string exactly when it has no whitespace character,
exactly one `@`, a non-empty local part before the `@`, and after it a domain part with a
`.` that is neither its first nor its last character. -/
theorem validateEmail_spec (text : String) :
    validateEmail text = true ↔ EmailShape text.data := by
  rw [validateEmail_iff]
  constructor
  · rintro ⟨a, b, c, ha, hb, hc, halla, hallb, hallc, hs⟩
    have na : ∀ ch ∈ a, isJSWhitespace ch = false ∧ ch ≠ '@' :=
      fun ch h => (notSpaceOrAt_iff ch).mp (halla ch h)
    have nb : ∀ ch ∈ b, isJSWhitespace ch = false ∧ ch ≠ '@' :=
      fun ch h => (notSpaceOrAt_iff ch).mp (hallb ch h)
    have nc : ∀ ch ∈ c, isJSWhitespace ch = false ∧ ch ≠ '@' :=
      fun ch h => (notSpaceOrAt_iff ch).mp (hallc ch h)
    have ca : a.count '@' = 0 :=
      List.count_eq_zero_of_not_mem (fun h => (na _ h).2 rfl)
    have cb : b.count '@' = 0 :=
      List.count_eq_zero_of_not_mem (fun h => (nb _ h).2 rfl)
    have cc : c.count '@' = 0 :=
      List.count_eq_zero_of_not_mem (fun h => (nc _ h).2 rfl)
    rw [hs]
    refine ⟨?_, ?_, a, b ++ '.' :: c, rfl, ha, b.length, ?_, ?_, ?_⟩
    · intro ch hch
      simp only [List.mem_append, List.mem_cons] at hch
      rcases hch with h | rfl | h | rfl | h
      · exact (na ch h).1
      · decide
      · exact (nb ch h).1
      · decide
      · exact (nc ch h).1
    · simp [List.count_append, List.count_cons, ca, cb, cc]
    · exact List.length_pos.mpr hb
    · have := List.length_pos.mpr hc
      simp only [List.length_append, List.length_cons]
      omega
    · rw [List.getElem?_append_right (Nat.le_refl _)]
      simp
  · rintro ⟨hws, hcount, l, d, hs, hl, i, hi0, hi1, hdot⟩
    rw [hs] at hws hcount
    have hcl : l.count '@' = 0 ∧ d.count '@' = 0 := by
      simp only [List.count_append, List.count_cons, beq_self_eq_true, if_true] at hcount
      omega
    have hilt : i < d.length := by omega
    have hget : d[i] = '.' := by
      rw [List.getElem?_eq_getElem hilt] at hdot
      exact Option.some.inj hdot
    have hd : d = d.take i ++ '.' :: d.drop (i + 1) := by
      conv_lhs => rw [← List.take_append_drop i d, List.drop_eq_getElem_cons hilt, hget]
    have hmem : ∀ ch ∈ d, notSpaceOrAt ch = true := by
      intro ch hch
      refine (notSpaceOrAt_iff ch).mpr ⟨hws ch (by simp [hch]), ?_⟩
      rintro rfl
      exact List.count_eq_zero.mp hcl.2 hch
    refine ⟨l, d.take i, d.drop (i + 1), hl, ?_, ?_, ?_, ?_, ?_, ?_⟩
    · intro h
      have := congrArg List.length h
      simp only [List.length_take, List.length_nil] at this
      omega
    · intro h
      have := congrArg List.length h
      simp only [List.length_drop, List.length_nil] at this
      omega
    · intro ch hch
      refine (notSpaceOrAt_iff ch).mpr ⟨hws ch (by simp [hch]), ?_⟩
      rintro rfl
      exact List.count_eq_zero.mp hcl.1 hch
    · intro ch hch
      exact hmem ch (List.mem_of_mem_take hch)
    · intro ch hch
      exact hmem ch (List.mem_of_mem_drop hch)
    · rw [hs, ← hd]

/-- Sample runs of `validateEmail`. -/
theorem validateEmail_examples :
    validateEmail "asha@studio.example" = true ∧ validateEmail "not-an-email" = false ∧
    validateEmail "a@b..c" = true ∧ validateEmail "a b@c.d" = false ∧
    validateEmail "a@b@c.d" = false ∧ validateEmail "a@.c" = false ∧
    validateEmail "a@b." = false ∧ validateEmail "@b.c" = false ∧
    validateEmail "a@b.c\n" = false ∧ validateEmail "" = false := by
  decide

/-! ## Booking submission -/

/-- C20: `submitBooking` throws before any store write when the email is empty or the
identifier list is absent or empty; otherwise it calls `set` exactly once, with the record
built from its arguments, returns the key of the new booking when the write is
acknowledged, and rethrows the error when it is not. -/
theorem submitBooking_spec (env : StoreEnv) (email : String)
    (instanceIds : Option (List InstanceId)) :
    ((email = "" ∨ instanceIds = none ∨ instanceIds = some []) →
      submitBooking env email instanceIds =
        ([], .error "Email and class instance IDs are required for booking.")) ∧
    (∀ ids : List InstanceId, email ≠ "" → instanceIds = some ids → ids ≠ [] →
      (submitBooking env email instanceIds).1.filter Effect.isStoreSet =
        [.storeSet env.pushKey
          (obj [("userEmail", str email), ("bookedInstanceIds", arr (ids.map num)),
            ("bookingTimestamp", serverTimestamp)])] ∧
      (env.setRejects = none → (submitBooking env email instanceIds).2 = .ok env.pushKey) ∧
      (∀ err, env.setRejects = some err →
        (submitBooking env email instanceIds).2 = .error err)) := by
  constructor
  · rintro (h | h | h)
    · subst h
      cases instanceIds <;> simp [submitBooking]
    · subst h
      rfl
    · subst h
      simp [submitBooking]
  · intro ids hemail hids hne
    subst hids
    have hlen : ids.length ≠ 0 := fun h => hne (List.length_eq_zero.mp h)
    have hcond : ¬ (email = "" ∨ ids.length = 0) := by
      rintro (h | h)
      · exact hemail h
      · exact hlen h
    unfold submitBooking
    simp only [if_neg hcond]
    cases hrej : env.setRejects with
    | none => simp [Effect.isStoreSet, bookingRecord]
    | some err => simp [Effect.isStoreSet, bookingRecord]

theorem validateEmail_ne_empty (email : String) (h : validateEmail email = true) :
    email ≠ "" := by
  rintro rfl
  revert h
  decide

/-- The run of `handleBookingSubmit` past validation, when the local store resolves. -/
theorem handleBookingSubmit_submitted (env : CheckoutEnv) (count : Nat) (email : String)
    (cartItems : List InstanceId) (hv : validateEmail email = true) (hne : cartItems ≠ [])
    (hst : env.storageRejects = none) :
    handleBookingSubmit env count email cartItems =
      match env.store.setRejects with
      | none =>
        { effects := [.setIsLoading true, .storageSetItem EMAIL_STORAGE_KEY email,
            .storeSet env.store.pushKey (bookingRecord email cartItems),
            .consoleLog "Booking successful for:" email,
            .clearCart, .alert "Booking Confirmed!" (confirmedMessage count),
            .setIsLoading false]
          cartItems := [] }
      | some err =>
        { effects := [.setIsLoading true, .storageSetItem EMAIL_STORAGE_KEY email,
            .storeSet env.store.pushKey (bookingRecord email cartItems),
            .consoleError "Firebase submitBooking Error:" err,
            .consoleError "Booking failed:" err,
            .alert "Booking Failed" "Something went wrong. Please try again.",
            .setIsLoading false]
          cartItems := runOpsFrom (runOpsFrom cartItems env.duringStorage) env.duringSubmit } := by
  have hlen : cartItems.length ≠ 0 := fun h => hne (List.length_eq_zero.mp h)
  have hcond : ¬ (email = "" ∨ cartItems.length = 0) := by
    rintro (h | h)
    · exact validateEmail_ne_empty email hv h
    · exact hlen h
  unfold handleBookingSubmit
  simp only [hv, Bool.not_true, Bool.false_eq_true, if_false, if_neg hlen, hst, submitBooking,
    if_neg hcond]
  cases hrej : env.store.setRejects with
  | none => simp [clearCart]
  | some err => simp

/-- The run of `handleBookingSubmit` past validation, when the local store rejects. -/
theorem handleBookingSubmit_storage_rejected (env : CheckoutEnv) (count : Nat) (email : String)
    (cartItems : List InstanceId) (hv : validateEmail email = true) (hne : cartItems ≠ [])
    (err : String) (hst : env.storageRejects = some err) :
    handleBookingSubmit env count email cartItems =
      { effects := [.setIsLoading true, .storageSetItem EMAIL_STORAGE_KEY email,
          .consoleError "Booking failed:" err,
          .alert "Booking Failed" "Something went wrong. Please try again.",
          .setIsLoading false]
        cartItems := runOpsFrom cartItems env.duringStorage } := by
  have hlen : cartItems.length ≠ 0 := fun h => hne (List.length_eq_zero.mp h)
  unfold handleBookingSubmit
  simp only [hv, Bool.not_true, Bool.false_eq_true, if_false, if_neg hlen, hst]

/-- C16: when the email fails `validateEmail` or the cart is empty, `handleBookingSubmit`
returns through a validation branch: its only effects are the alert (and `goBack` for the
empty cart), none is a call of the local store or of `submitBooking`, and the cart is
unchanged. With email `not-an-email` and cart `[7]` the run is the `Invalid Email` alert
alone and the cart is still `[7]`. -/
theorem validation_fails_fast (env : CheckoutEnv) (count : Nat) (email : String)
    (cartItems : List InstanceId) (h : validateEmail email = false ∨ cartItems = []) :
    (handleBookingSubmit env count email cartItems).cartItems = cartItems ∧
    ((handleBookingSubmit env count email cartItems).effects =
        [.alert "Invalid Email" "Please enter a valid email address."] ∨
      (handleBookingSubmit env count email cartItems).effects =
        [.alert "Empty Cart" "Your cart is empty.", .goBack]) ∧
    (∀ e ∈ (handleBookingSubmit env count email cartItems).effects,
      e.isStoreCall = false ∧ e ≠ .clearCart) ∧
    handleBookingSubmit env count "not-an-email" [7] =
      { effects := [.alert "Invalid Email" "Please enter a valid email address."]
        cartItems := [7] } := by
  have hscen : handleBookingSubmit env count "not-an-email" [7] =
      { effects := [.alert "Invalid Email" "Please enter a valid email address."]
        cartItems := [7] } := by
    have hf : validateEmail "not-an-email" = false := by decide
    unfold handleBookingSubmit
    simp only [hf, Bool.not_false, if_true]
  by_cases hv : validateEmail email = true
  · have hc : cartItems = [] := by
      rcases h with h | h
      · rw [hv] at h
        cases h
      · exact h
    subst hc
    have hrun : handleBookingSubmit env count email [] =
        { effects := [.alert "Empty Cart" "Your cart is empty.", .goBack], cartItems := [] } := by
      unfold handleBookingSubmit
      simp only [hv, Bool.not_true, Bool.false_eq_true, if_false, List.length_nil, if_true]
    rw [hrun]
    refine ⟨rfl, Or.inr rfl, ?_, hscen⟩
    intro e he
    simp only [List.mem_cons, List.mem_singleton, List.not_mem_nil, or_false] at he
    rcases he with rfl | rfl <;> exact ⟨rfl, by intro h; cases h⟩
  · have hf : validateEmail email = false := by simpa using hv
    have hrun : handleBookingSubmit env count email cartItems =
        { effects := [.alert "Invalid Email" "Please enter a valid email address."]
          cartItems := cartItems } := by
      unfold handleBookingSubmit
      simp only [hf, Bool.not_false, if_true]
    rw [hrun]
    refine ⟨rfl, Or.inl rfl, ?_, hscen⟩
    intro e he
    rw [List.mem_singleton.mp he]
    exact ⟨rfl, by intro h; cases h⟩

theorem validation_fails_fast_witness :
    (validateEmail "not-an-email" = false ∨ ([7] : List InstanceId) = []) ∧
    (handleBookingSubmit ⟨none, ⟨"-Nk1", none⟩, [], []⟩ 1 "not-an-email" [7]).cartItems = [7] ∧
    ((handleBookingSubmit ⟨none, ⟨"-Nk1", none⟩, [], []⟩ 1 "not-an-email" [7]).effects =
        [.alert "Invalid Email" "Please enter a valid email address."] ∨
      (handleBookingSubmit ⟨none, ⟨"-Nk1", none⟩, [], []⟩ 1 "not-an-email" [7]).effects =
        [.alert "Empty Cart" "Your cart is empty.", .goBack]) ∧
    (∀ e ∈ (handleBookingSubmit ⟨none, ⟨"-Nk1", none⟩, [], []⟩ 1 "not-an-email" [7]).effects,
      e.isStoreCall = false ∧ e ≠ .clearCart) ∧
    handleBookingSubmit ⟨none, ⟨"-Nk1", none⟩, [], []⟩ 1 "not-an-email" [7] =
      { effects := [.alert "Invalid Email" "Please enter a valid email address."]
        cartItems := [7] } :=
  ⟨Or.inl (by decide),
    validation_fails_fast ⟨none, ⟨"-Nk1", none⟩, [], []⟩ 1 "not-an-email" [7]
      (Or.inl (by decide))⟩

/-- C17: for a valid email and a non-empty cart, `handleBookingSubmit` calls `clearCart`
exactly when the local store resolves and the record store acknowledges the write, and
then after the write; the cart is then empty. When the local store or the write fails the
run changes nothing in the cart: the list is what the mutations of other handlers made of
it, and without such mutations it is the list as before, which is not empty. -/
theorem cart_cleared_iff_write_acknowledged (env : CheckoutEnv) (count : Nat) (email : String)
    (cartItems : List InstanceId) (hv : validateEmail email = true) (hne : cartItems ≠ []) :
    (Effect.clearCart ∈ (handleBookingSubmit env count email cartItems).effects ↔
      env.storageRejects = none ∧ env.store.setRejects = none) ∧
    (env.storageRejects = none → env.store.setRejects = none →
      (handleBookingSubmit env count email cartItems).cartItems = [] ∧
      (handleBookingSubmit env count email cartItems).effects =
        [.setIsLoading true, .storageSetItem EMAIL_STORAGE_KEY email,
          .storeSet env.store.pushKey (bookingRecord email cartItems),
          .consoleLog "Booking successful for:" email,
          .clearCart, .alert "Booking Confirmed!" (confirmedMessage count),
          .setIsLoading false]) ∧
    (∀ err, env.storageRejects = some err →
      (handleBookingSubmit env count email cartItems).cartItems =
        runOpsFrom cartItems env.duringStorage ∧
      ∀ e ∈ (handleBookingSubmit env count email cartItems).effects, e.isStoreSet = false) ∧
    (∀ err, env.storageRejects = none → env.store.setRejects = some err →
      (handleBookingSubmit env count email cartItems).cartItems =
        runOpsFrom (runOpsFrom cartItems env.duringStorage) env.duringSubmit) ∧
    (env.duringStorage = [] → env.duringSubmit = [] →
      ((handleBookingSubmit env count email cartItems).cartItems = [] ↔
        env.storageRejects = none ∧ env.store.setRejects = none) ∧
      ((env.storageRejects ≠ none ∨ env.store.setRejects ≠ none) →
        (handleBookingSubmit env count email cartItems).cartItems = cartItems)) := by
  cases hst : env.storageRejects with
  | some err =>
    rw [handleBookingSubmit_storage_rejected env count email cartItems hv hne err hst]
    refine ⟨?_, ?_, ?_, ?_, ?_⟩
    · simp
    · intro h
      cases h
    · intro err2 h2
      cases h2
      refine ⟨rfl, ?_⟩
      intro e he
      simp only [List.mem_cons, List.mem_singleton, List.not_mem_nil, or_false] at he
      rcases he with rfl | rfl | rfl | rfl | rfl <;> rfl
    · intro err2 h
      cases h
    · intro h1 _
      rw [h1]
      simp [runOpsFrom, hne]
  | none =>
    rw [handleBookingSubmit_submitted env count email cartItems hv hne hst]
    cases hrej : env.store.setRejects with
    | none =>
      refine ⟨?_, ?_, ?_, ?_, ?_⟩
      · simp
      · intro _ _
        exact ⟨rfl, rfl⟩
      · intro err2 h
        cases h
      · intro err2 _ h
        cases h
      · intro _ _
        simp
    | some err =>
      refine ⟨?_, ?_, ?_, ?_, ?_⟩
      · simp
      · intro _ h
        cases h
      · intro err2 h
        cases h
      · intro err2 _ _
        rfl
      · intro h1 h2
        rw [h1, h2]
        simp [runOpsFrom, hne]

theorem cart_cleared_iff_write_acknowledged_witness :
    (handleBookingSubmit ⟨none, ⟨"-Nk1", none⟩, [], []⟩ 1 "asha@studio.example" [7]).cartItems
      = [] ∧
    (handleBookingSubmit ⟨none, ⟨"-Nk1", some "PERMISSION_DENIED"⟩, [], []⟩ 1
      "asha@studio.example" [7]).cartItems = [7] ∧
    (handleBookingSubmit ⟨some "disk full", ⟨"-Nk1", none⟩, [], []⟩ 1
      "asha@studio.example" [7]).cartItems = [7] :=
  ⟨((cart_cleared_iff_write_acknowledged ⟨none, ⟨"-Nk1", none⟩, [], []⟩ 1
      "asha@studio.example" [7] (by decide) (by decide)).2.1 rfl rfl).1,
    ((cart_cleared_iff_write_acknowledged ⟨none, ⟨"-Nk1", some "PERMISSION_DENIED"⟩, [], []⟩ 1
      "asha@studio.example" [7] (by decide) (by decide)).2.2.2.2 rfl rfl).2
      (Or.inr (by decide)),
    ((cart_cleared_iff_write_acknowledged ⟨some "disk full", ⟨"-Nk1", none⟩, [], []⟩ 1
      "asha@studio.example" [7] (by decide) (by decide)).2.2.2.2 rfl rfl).2
      (Or.inl (by decide))⟩

/-- C19: for a valid email and a non-empty cart, once the local store has resolved,
`handleBookingSubmit` calls `set` exactly once, with `userEmail` the email and
`bookedInstanceIds` the cart list of the render that started the run, whatever cart
mutations other handlers perform while the run is suspended; when the local store rejects
no record is written. -/
theorem written_record_is_snapshot (env : CheckoutEnv) (count : Nat) (email : String)
    (cartItems : List InstanceId) (hv : validateEmail email = true) (hne : cartItems ≠ []) :
    (env.storageRejects = none →
      ∀ ops1 ops2 : List CartOp,
        (handleBookingSubmit ⟨env.storageRejects, env.store, ops1, ops2⟩ count email
          cartItems).effects.filter Effect.isStoreSet =
          [.storeSet env.store.pushKey
            (obj [("userEmail", str email), ("bookedInstanceIds", arr (cartItems.map num)),
              ("bookingTimestamp", serverTimestamp)])]) ∧
    (env.storageRejects ≠ none →
      (handleBookingSubmit env count email cartItems).effects.filter Effect.isStoreSet = []) := by
  constructor
  · intro hst ops1 ops2
    rw [handleBookingSubmit_submitted ⟨env.storageRejects, env.store, ops1, ops2⟩ count email
      cartItems hv hne hst]
    cases hrej : env.store.setRejects with
    | none => simp [Effect.isStoreSet, bookingRecord]
    | some err => simp [Effect.isStoreSet, bookingRecord]
  · intro hst
    cases h : env.storageRejects with
    | none => exact absurd h hst
    | some err =>
      rw [handleBookingSubmit_storage_rejected env count email cartItems hv hne err h]
      simp [Effect.isStoreSet]

theorem written_record_is_snapshot_witness :
    (handleBookingSubmit ⟨none, ⟨"-Nk1", none⟩, [.add 9, .remove 7], [.clear]⟩ 2
      "asha@studio.example" [7, 4]).effects.filter Effect.isStoreSet =
      [.storeSet "-Nk1"
        (obj [("userEmail", str "asha@studio.example"),
          ("bookedInstanceIds", arr [num 7, num 4]),
          ("bookingTimestamp", serverTimestamp)])] :=
  (written_record_is_snapshot ⟨none, ⟨"-Nk1", none⟩, [], []⟩ 2 "asha@studio.example" [7, 4]
    (by decide) (by decide)).1 rfl [.add 9, .remove 7] [.clear]

/-! ## The reference day, date order and stability -/

/-- C26: for a reference day with year `y`, month `m` in 1..12 and day `d` in 1..31, the
number built in lines 22-26 from the year and the zero-padded month and day is the Number
value of `y * 10000 + m * 100 + d`, a function of these three components alone. It is
`y * 10000 + m * 100 + d` itself whenever that integer is below `2 ^ 53`, as it is for every
year that a `Date` can hold (at most 275760). -/
theorem todayNum_is_yyyymmdd (y m d : Nat) (hm1 : 1 ≤ m) (hm2 : m ≤ 12) (hd1 : 1 ≤ d)
    (hd2 : d ≤ 31) :
    todayNum ⟨y, m - 1, d⟩ = some ((roundToDouble (y * 10000 + m * 100 + d) : Nat) : Int) ∧
    (y * 10000 + m * 100 + d < 2 ^ 53 →
      todayNum ⟨y, m - 1, d⟩ = some ((y * 10000 + m * 100 + d : Nat) : Int)) ∧
    (y ≤ 275760 → todayNum ⟨y, m - 1, d⟩ = some ((y * 10000 + m * 100 + d : Nat) : Int)) := by
  have h := todayNum_eq ⟨y, m - 1, d⟩ (by simp only; omega) (by simp only; omega)
  simp only at h
  have hm : m - 1 + 1 = m := by omega
  rw [hm] at h
  refine ⟨h, ?_, ?_⟩
  · intro hlt
    rw [h, roundToDouble_of_lt _ (by rw [twoPow53_eq]; exact hlt)]
  · intro hy
    rw [h, roundToDouble_of_lt _ (by unfold twoPow53; omega)]

theorem todayNum_is_yyyymmdd_witness : todayNum ⟨2026, 11 - 1, 6⟩ =
    some ((2026 * 10000 + 11 * 100 + 6 : Nat) : Int) :=
  (todayNum_is_yyyymmdd 2026 11 6 (by decide) (by decide) (by decide) (by decide)).2.2
    (by decide)

/-- C27: a well-formed `YYYY-MM-DD` string, hyphens removed, parses to
`Y * 10000 + M * 100 + D`; for two such dates the first is on or before the second in
calendar order exactly when its integer is less than or equal to the other's. Hence the
date filter keeps a record exactly when its day is not before the reference day, and the
sort comparator orders two records as the calendar does. -/
theorem date_integer_agrees_with_calendar (s1 s2 : String) (ymd1 ymd2 : Nat × Nat × Nat)
    (h1 : parseIsoDate s1 = some ymd1) (h2 : parseIsoDate s2 = some ymd2) :
    parseInt (removeHyphens s1.data) =
      some ((ymd1.1 * 10000 + ymd1.2.1 * 100 + ymd1.2.2 : Nat) : Int) ∧
    (∀ n1 n2 : Int, parseInt (removeHyphens s1.data) = some n1 →
      parseInt (removeHyphens s2.data) = some n2 →
      ((calendarLT ymd1 ymd2 ∨ ymd1 = ymd2) ↔ n1 ≤ n2)) ∧
    (∀ (today : JSDate) (i : Nat) (o : Obj), today.Valid →
      getField "date" o = some (str s1) →
      (keepInstance (todayNum today) (withId i (obj o)) = true ↔
        (calendarLT today.ymd ymd1 ∨ today.ymd = ymd1))) ∧
    (∀ a b : Val, getProp a "date" = some (str s1) → getProp b "date" = some (str s2) →
      (dateLE a b ↔ (calendarLT ymd1 ymd2 ∨ ymd1 = ymd2))) := by
  obtain ⟨Y1, M1, D1⟩ := ymd1
  obtain ⟨Y2, M2, D2⟩ := ymd2
  obtain ⟨p1, hM1, hD1, _⟩ := parseInt_isoDate s1 Y1 M1 D1 h1
  obtain ⟨p2, hM2, hD2, _⟩ := parseInt_isoDate s2 Y2 M2 D2 h2
  have horder : ∀ n1 n2 : Int, parseInt (removeHyphens s1.data) = some n1 →
      parseInt (removeHyphens s2.data) = some n2 →
      ((calendarLT (Y1, M1, D1) (Y2, M2, D2) ∨ (Y1, M1, D1) = (Y2, M2, D2)) ↔ n1 ≤ n2) := by
    intro n1 n2 e1 e2
    rw [p1] at e1
    rw [p2] at e2
    cases e1
    cases e2
    simp only [calendarLT, Prod.mk.injEq]
    omega
  refine ⟨p1, horder, ?_, ?_⟩
  · intro today i o hv hdate
    rw [keepInstance_isoDate today hv i o s1 (Y1, M1, D1) hdate h1]
    obtain ⟨_, _, hd⟩ := hv
    simp only [calendarLT, JSDate.ymd, Prod.mk.injEq]
    omega
  · intro a b ha hb
    have da : dateNum a = ((Y1 * 10000 + M1 * 100 + D1 : Nat) : Int) := by
      simp [dateNum, ha, p1]
    have db : dateNum b = ((Y2 * 10000 + M2 * 100 + D2 : Nat) : Int) := by
      simp [dateNum, hb, p2]
    unfold dateLE
    rw [da, db]
    exact (horder _ _ p1 p2).symm

theorem date_integer_agrees_with_calendar_witness :
    parseInt (removeHyphens "2026-11-06".data) = some ((2026 * 10000 + 11 * 100 + 6 : Nat) : Int) :=
  (date_integer_agrees_with_calendar "2026-11-06" "2026-12-01" (2026, 11, 6) (2026, 12, 1)
    (by decide) (by decide)).1

theorem pairwise_orderedInsert_stable {α : Type} (r : α → α → Prop) [DecidableRel r]
    (P : α → α → Prop) (x : α) (l : List α) (hl : l.Pairwise P)
    (hx : ∀ z ∈ l, P x z) (hback : ∀ y ∈ l, ¬ r x y → P y x) :
    (l.orderedInsert r x).Pairwise P := by
  induction l with
  | nil => simp
  | cons b rest ih =>
    rw [List.orderedInsert]
    by_cases hr : r x b
    · rw [if_pos hr]
      exact List.pairwise_cons.mpr ⟨hx, hl⟩
    · rw [if_neg hr]
      obtain ⟨hb, hrest⟩ := List.pairwise_cons.mp hl
      refine List.pairwise_cons.mpr ⟨?_, ih hrest
        (fun z hz => hx z (List.mem_cons_of_mem _ hz))
        (fun y hy => hback y (List.mem_cons_of_mem _ hy))⟩
      intro z hz
      rcases (List.mem_orderedInsert r).mp hz with rfl | hz
      · exact hback b (List.mem_cons_self _ _) hr
      · exact hb z hz

/-- Insertion sort is stable: two elements that the order does not separate keep the
relative position they had, expressed by a relation `R` that holds pairwise before. -/
theorem insertionSort_stable {α : Type} (r : α → α → Prop) [DecidableRel r]
    (R : α → α → Prop) (l : List α) (h : l.Pairwise R) :
    (l.insertionSort r).Pairwise (fun a b => r b a → R a b) := by
  induction l with
  | nil => simp
  | cons x rest ih =>
    obtain ⟨hx, hrest⟩ := List.pairwise_cons.mp h
    rw [List.insertionSort]
    apply pairwise_orderedInsert_stable r _ x _ (ih hrest)
    · intro z hz _
      exact hx z ((List.mem_insertionSort r).mp hz)
    · intro y _ hnr hr
      exact absurd hr hnr

theorem pairwise_fst_enum (raw : List Val) : raw.enum.Pairwise (fun p q => p.1 < q.1) := by
  have h : (raw.enum.map Prod.fst).Pairwise (fun a b => a < b) := by
    rw [List.enum_map_fst]
    exact List.pairwise_lt_range _
  exact List.pairwise_map.mp h

theorem pairwise_id_instancesBeforeSort (raw : List Val) (today : JSDate) (tm : JSMap)
    (cls : Val) :
    (instancesBeforeSort (futureClassInstances raw today) tm cls).Pairwise
      (fun a b => ∃ i j : Nat, getProp a "id" = some (num (i : Int)) ∧
        getProp b "id" = some (num (j : Int)) ∧ i < j) := by
  unfold instancesBeforeSort
  rw [futureClassInstances_eq, List.filter_map, List.map_map, List.pairwise_map]
  refine (((pairwise_fst_enum raw).sublist (List.filter_sublist _)).sublist
    (List.filter_sublist _)).imp ?_
  intro p q hpq
  refine ⟨p.1, q.1, ?_, ?_, hpq⟩
  · simp only [Function.comp_apply]
    rw [getProp_withTeacher_withId (by decide), getProp_withId_id]
  · simp only [Function.comp_apply]
    rw [getProp_withTeacher_withId (by decide), getProp_withId_id]

/-- C28: in the `instances` list of every processed class, two entries with the same date
(the same date string, or the same date integer) appear in ascending order of their
position-derived `id`. -/
theorem equal_dates_keep_position_order (rawData : RawData) (today : JSDate) :
    ∃ m, processFirebaseData rawData today = .ok m ∧
      ∀ c ∈ m.processedClasses, ∃ l, getProp c "instances" = some (arr l) ∧
        l.Pairwise (fun a b =>
          (getProp a "date" = getProp b "date" ∨ dateInteger a = dateInteger b) →
            ∃ i j : Nat, getProp a "id" = some (num (i : Int)) ∧
              getProp b "id" = some (num (j : Int)) ∧ i < j) := by
  obtain ⟨m, hm, hpc, _, _, _, _⟩ := processFirebaseData_fields rawData today
  refine ⟨m, hm, ?_⟩
  intro c hc
  rw [hpc] at hc
  obtain ⟨j, r, _, _, rfl⟩ := (mem_map_assemble _ _ _ c).mp hc
  refine ⟨_, getProp_assembleClass_instances _ _ _, ?_⟩
  refine List.Pairwise.imp_of_mem ?_ (insertionSort_stable dateLE _ _
    (pairwise_id_instancesBeforeSort (rawData.classInstances.getD []) today m.teacherMap
      (withId j r)))
  intro a b ha hb hstable hsame
  apply hstable
  rw [List.mem_insertionSort] at ha hb
  have da := dateInteger_of_instance _ today _ _ a ha
  have db := dateInteger_of_instance _ today _ _ b hb
  have heq : dateNum a = dateNum b := by
    rcases hsame with h | h
    · unfold dateNum
      rw [h]
    · rw [da, db] at h
      exact Option.some.inj h
  unfold dateLE
  omega

/-- A concrete run: three instances of class 0 on the same day, the first stored with a
later date, come out with the two equal dates in position order. -/
theorem stable_run_example :
    ∃ m, processFirebaseData
        ⟨some [obj [("description", str "Hatha")]],
          some [obj [("classId", num 0), ("date", str "2026-12-02")],
            obj [("classId", num 0), ("date", str "2026-11-07")],
            obj [("classId", num 0), ("date", str "2026-11-07")]], none, none⟩
        ⟨2026, 10, 6⟩ = .ok m ∧
      m.processedClasses.map (fun c => getProp c "instances") =
        [some (arr [obj [("classId", num 0), ("date", str "2026-11-07"), ("id", num 1),
            ("teacher", unknownTeacher)],
          obj [("classId", num 0), ("date", str "2026-11-07"), ("id", num 2),
            ("teacher", unknownTeacher)],
          obj [("classId", num 0), ("date", str "2026-12-02"), ("id", num 0),
            ("teacher", unknownTeacher)]])] :=
  ⟨_, processFirebaseData_eq _ _, by decide⟩

/-! ## Reading the model -/

theorem getField_mkObj_of_not_mem (k : String) (fields : List (String × JSVal))
    (h : k ∉ fields.map Prod.fst) : getField k (mkObj fields) = none := by
  induction fields with
  | nil => rfl
  | cons p rest ih =>
    obtain ⟨k1, x⟩ := p
    simp only [List.map_cons, List.mem_cons, not_or] at h
    have hne : ¬ k1 = k := fun e => h.1 e.symm
    cases x with
    | none => simpa [mkObj] using ih h.2
    | some v =>
      have := ih h.2
      simp only [mkObj] at this
      simp [mkObj, getField, hne, this]

theorem getField_mkObj_head (k : String) (x : JSVal) (rest : List (String × JSVal))
    (h : k ∉ rest.map Prod.fst) : getField k (mkObj ((k, x) :: rest)) = x := by
  cases x with
  | none => simpa [mkObj] using getField_mkObj_of_not_mem k rest h
  | some v => simp [mkObj, getField]

theorem getField_mkObj_tail {k k1 : String} (hne : k1 ≠ k) (x : JSVal)
    (rest : List (String × JSVal)) :
    getField k (mkObj ((k1, x) :: rest)) = getField k (mkObj rest) := by
  cases x with
  | none => simp [mkObj]
  | some v => simp [mkObj, getField, hne]

/-- The fields of a model returned by the pass. -/
theorem loaded_model_maps (rawData : RawData) (today : JSDate) (m : IndexedModel)
    (hm : processFirebaseData rawData today = .ok m) :
    m.classMap = mapById (cleanAndIndex (rawData.classes.getD [])) ∧
    m.classInstanceMap =
      mapById (futureClassInstances (rawData.classInstances.getD []) today) := by
  rw [processFirebaseData_eq] at hm
  cases hm
  exact ⟨rfl, rfl⟩

/-- In a model returned by the pass, a value found in `classInstanceMap` is an object with
`id` equal to the lookup key, and a value found in `classMap` is an object. -/
theorem loaded_model_lookup (rawData : RawData) (today : JSDate) (m : IndexedModel)
    (hm : processFirebaseData rawData today = .ok m) :
    (∀ k v, mapGet m.classInstanceMap k = some v →
      truthy v = true ∧ getProp v "id" = k) ∧
    (∀ k v, mapGet m.classMap k = some v → truthy v = true) := by
  obtain ⟨hcm, hcim⟩ := loaded_model_maps rawData today m hm
  constructor
  · intro k v h
    rw [hcim] at h
    obtain ⟨i, r, rfl, _, _, _, rfl⟩ := (mapGet_future _ today k v).mp h
    exact ⟨rfl, getProp_withId_id i r⟩
  · intro k v h
    rw [hcm] at h
    obtain ⟨i, r, _, _, _, rfl⟩ := (mapGet_clean _ k v).mp h
    rfl

/-- The two outcomes of the cart item callback. -/
theorem cartItemDetail_cases (m : IndexedModel) (instanceId : InstanceId) :
    (resolvedClass m instanceId = none ∧ cartItemDetail m instanceId = null) ∨
    ∃ inst parentClass fields,
      mapGet m.classInstanceMap (some (num instanceId)) = some inst ∧
      resolvedClass m instanceId = some parentClass ∧
      cartItemDetail m instanceId = obj fields ∧
      getField "instanceId" fields = getProp inst "id" ∧
      getField "price" fields = getProp parentClass "price" := by
  unfold resolvedClass resolvedClassOf cartItemDetail
  cases hi : mapGet m.classInstanceMap (some (num instanceId)) with
  | none => exact Or.inl ⟨rfl, rfl⟩
  | some inst =>
    by_cases hti : truthy inst = true
    · cases hc : mapGet m.classMap (getProp inst "classId") with
      | none =>
        left
        simp [hti, hc]
      | some pc =>
        by_cases htc : truthy pc = true
        · right
          refine ⟨inst, pc, _, rfl, by simp [hti, hc, htc], by simp [hti, hc, htc]; rfl, ?_, ?_⟩
          · exact getField_mkObj_head _ _ _ (by simp)
          · rw [getField_mkObj_tail (by decide), getField_mkObj_tail (by decide),
              getField_mkObj_tail (by decide), getField_mkObj_tail (by decide),
              getField_mkObj_tail (by decide)]
            exact getField_mkObj_head _ _ _ (by simp)
        · left
          simp [hti, hc, htc]
    · left
      simp [hti]

/-- The two outcomes of the callback enriching one stored identifier. -/
theorem bookedInstanceDetail_cases (m : IndexedModel) (instanceId : Val) :
    (resolvedClassOf m instanceId = none ∧ bookedInstanceDetail m instanceId = null) ∨
    ∃ inst parentClass fields,
      mapGet m.classInstanceMap (some instanceId) = some inst ∧
      resolvedClassOf m instanceId = some parentClass ∧
      bookedInstanceDetail m instanceId = obj fields ∧
      getField "instanceId" fields = getProp inst "id" ∧
      getField "price" fields = getProp parentClass "price" := by
  unfold resolvedClassOf bookedInstanceDetail
  cases hi : mapGet m.classInstanceMap (some instanceId) with
  | none => exact Or.inl ⟨rfl, rfl⟩
  | some inst =>
    by_cases hti : truthy inst = true
    · cases hc : mapGet m.classMap (getProp inst "classId") with
      | none =>
        left
        simp [hti, hc]
      | some pc =>
        by_cases htc : truthy pc = true
        · right
          refine ⟨inst, pc, _, rfl, by simp [hti, hc, htc], by simp [hti, hc, htc]; rfl, ?_, ?_⟩
          · exact getField_mkObj_head _ _ _ (by simp)
          · rw [getField_mkObj_tail (by decide), getField_mkObj_tail (by decide),
              getField_mkObj_tail (by decide), getField_mkObj_tail (by decide),
              getField_mkObj_tail (by decide)]
            exact getField_mkObj_head _ _ _ (by simp)
        · left
          simp [hti, hc, htc]
    · left
      simp [hti]

theorem truthy_cartItemDetail (m : IndexedModel) (instanceId : InstanceId) :
    truthy (cartItemDetail m instanceId) = (resolvedClass m instanceId).isSome := by
  rcases cartItemDetail_cases m instanceId with ⟨h1, h2⟩ | ⟨_, _, _, _, h1, h2, _, _⟩
  · rw [h1, h2]
    rfl
  · rw [h1, h2]
    rfl

theorem truthy_bookedInstanceDetail (m : IndexedModel) (instanceId : Val) :
    truthy (bookedInstanceDetail m instanceId) = (resolvedClassOf m instanceId).isSome := by
  rcases bookedInstanceDetail_cases m instanceId with ⟨h1, h2⟩ | ⟨_, _, _, _, h1, h2, _, _⟩
  · rw [h1, h2]
    rfl
  · rw [h1, h2]
    rfl

/-- In a model returned by the pass, an identifier resolves with its class exactly when it
is a key of `classInstanceMap` and the `classId` found there is a key of `classMap`. -/
theorem resolvedClassOf_isSome_iff (rawData : RawData) (today : JSDate) (m : IndexedModel)
    (hm : processFirebaseData rawData today = .ok m) (instanceId : Val) :
    (resolvedClassOf m instanceId).isSome = true ↔
      ∃ inst cls, mapGet m.classInstanceMap (some instanceId) = some inst ∧
        mapGet m.classMap (getProp inst "classId") = some cls := by
  obtain ⟨h1, h2⟩ := loaded_model_lookup rawData today m hm
  unfold resolvedClassOf
  constructor
  · intro h
    cases hi : mapGet m.classInstanceMap (some instanceId) with
    | none => simp [hi] at h
    | some inst =>
      cases hc : mapGet m.classMap (getProp inst "classId") with
      | none => simp [hi, hc] at h
      | some pc => exact ⟨inst, pc, rfl, hc⟩
  · rintro ⟨inst, cls, hi, hc⟩
    simp [hi, hc, (h1 _ _ hi).1, h2 _ _ hc]

/-! ## Bookings: `loadBookings` -/

/-- C21, as stated, fails: with no class record and one future instance whose `classId`
is 3, the stored identifier 0 is a key of `classInstanceMap`, yet the enriched instance
list of a booking of `[0]` is empty. -/
theorem booked_instance_without_class_dropped :
    ∃ m, processFirebaseData
        ⟨some [], some [obj [("classId", num 3), ("date", str "2099-01-01")]], none, none⟩
        ⟨2026, 10, 6⟩ = .ok m ∧
      mapGet m.classInstanceMap (some (num 0)) =
        some (obj [("classId", num 3), ("date", str "2099-01-01"), ("id", num 0)]) ∧
      instanceDetails m ⟨some (str "-Nk1"), some [num 0], some 1730851200000⟩ = [] :=
  ⟨_, processFirebaseData_eq _ _, by decide, by decide⟩

/-- C21, amended: for a model returned by the pass, the enriched instance list of a booking
has one entry for each stored identifier that is a key of `classInstanceMap` and whose
`classId` there is a key of `classMap`, in the stored order, the entry carrying that
identifier as `instanceId`; any other identifier yields `null` and no entry. -/
theorem booked_instances_resolve_with_class (rawData : RawData) (today : JSDate)
    (m : IndexedModel) (hm : processFirebaseData rawData today = .ok m)
    (booking : FetchedBooking) :
    instanceDetails m booking =
      ((booking.bookedInstanceIds.getD []).filter
        (fun id => (resolvedClassOf m id).isSome)).map (bookedInstanceDetail m) ∧
    (∀ id : Val, (resolvedClassOf m id).isSome = true ↔
      ∃ inst cls, mapGet m.classInstanceMap (some id) = some inst ∧
        mapGet m.classMap (getProp inst "classId") = some cls) ∧
    (∀ id : Val, (resolvedClassOf m id).isSome = true →
      ∃ fields, bookedInstanceDetail m id = obj fields ∧
        getField "instanceId" fields = some id) ∧
    (∀ id : Val, (resolvedClassOf m id).isSome = false →
      bookedInstanceDetail m id = null) := by
  refine ⟨?_, resolvedClassOf_isSome_iff rawData today m hm, ?_, ?_⟩
  · unfold instanceDetails
    rw [List.filter_map]
    congr 1
    apply List.filter_congr
    intro id _
    exact truthy_bookedInstanceDetail m id
  · intro id h
    rcases bookedInstanceDetail_cases m id with ⟨h1, _⟩ | ⟨inst, _, fields, hi, _, hd, hf, _⟩
    · rw [h1] at h
      cases h
    · refine ⟨fields, hd, ?_⟩
      rw [hf]
      exact ((loaded_model_lookup rawData today m hm).1 _ _ hi).2
  · intro id h
    rcases bookedInstanceDetail_cases m id with ⟨_, h2⟩ | ⟨_, _, _, _, h1, _, _, _⟩
    · exact h2
    · rw [h1] at h
      cases h

theorem booked_instances_resolve_with_class_witness :
    ∃ m, processFirebaseData
        ⟨some [obj [("description", str "Hatha"), ("time", str "09:00")]],
          some [obj [("classId", num 0), ("date", str "2099-01-01")],
            obj [("classId", num 3), ("date", str "2099-01-02")]], none, none⟩
        ⟨2026, 10, 6⟩ = .ok m ∧
      instanceDetails m ⟨some (str "-Nk1"), some [num 1, num 0, num 7], none⟩ =
        (([num 1, num 0, num 7] : List Val).filter
          (fun id => (resolvedClassOf m id).isSome)).map (bookedInstanceDetail m) :=
  ⟨_, processFirebaseData_eq _ _,
    (booked_instances_resolve_with_class _ ⟨2026, 10, 6⟩ _ (processFirebaseData_eq
      ⟨some [obj [("description", str "Hatha"), ("time", str "09:00")]],
        some [obj [("classId", num 0), ("date", str "2099-01-01")],
          obj [("classId", num 3), ("date", str "2099-01-02")]], none, none⟩
      ⟨2026, 10, 6⟩) ⟨some (str "-Nk1"), some [num 1, num 0, num 7], none⟩).1⟩

theorem mem_detailedBookings (m : IndexedModel) (fetched : List FetchedBooking)
    (d : DetailedBooking) :
    d ∈ detailedBookings m fetched ↔
      (∃ b ∈ fetched, d = enrichBooking m b) ∧ d.instances ≠ [] := by
  unfold detailedBookings
  rw [List.mem_insertionSort, List.mem_filter, List.mem_map]
  constructor
  · rintro ⟨⟨b, hb, rfl⟩, hlen⟩
    refine ⟨⟨b, hb, rfl⟩, ?_⟩
    intro h
    rw [h] at hlen
    simp at hlen
  · rintro ⟨⟨b, hb, rfl⟩, hne⟩
    refine ⟨⟨b, hb, rfl⟩, ?_⟩
    simpa using List.length_pos.mpr hne

theorem instanceDetails_ne_nil_iff (m : IndexedModel) (b : FetchedBooking) :
    instanceDetails m b ≠ [] ↔
      ∃ id ∈ b.bookedInstanceIds.getD [], bookedInstanceDetail m id ≠ null := by
  have hnull : ∀ id, truthy (bookedInstanceDetail m id) = true ↔
      bookedInstanceDetail m id ≠ null := by
    intro id
    rcases bookedInstanceDetail_cases m id with ⟨_, h2⟩ | ⟨_, _, _, _, _, h2, _, _⟩
    · rw [h2]
      simp [truthy]
    · rw [h2]
      simp [truthy]
  unfold instanceDetails
  rw [← List.length_pos, List.length_pos_iff_exists_mem]
  constructor
  · rintro ⟨x, hx⟩
    obtain ⟨hx1, hx2⟩ := List.mem_filter.mp hx
    obtain ⟨id, hid, rfl⟩ := List.mem_map.mp hx1
    exact ⟨id, hid, (hnull id).mp hx2⟩
  · rintro ⟨id, hid, hne⟩
    exact ⟨_, List.mem_filter.mpr ⟨List.mem_map.mpr ⟨id, hid, rfl⟩, (hnull id).mpr hne⟩⟩

/-- C22: no booking in the list that `loadBookings` produces has an empty enriched instance
list; every booking in it is the enriched form of a fetched one; and the enriched form of a
fetched booking is in the list exactly when one of its stored identifiers yields an
enriched instance. -/
theorem bookings_without_instances_dropped (m : IndexedModel) (fetched : List FetchedBooking) :
    (∀ (email : String) (prev : BookingsState), email ≠ "" →
      (loadBookings m false fetched (some email) prev).bookings = detailedBookings m fetched) ∧
    (∀ d ∈ detailedBookings m fetched, d.instances ≠ [] ∧ ∃ b ∈ fetched, d = enrichBooking m b) ∧
    (∀ b ∈ fetched, (enrichBooking m b ∈ detailedBookings m fetched ↔
      ∃ id ∈ b.bookedInstanceIds.getD [], bookedInstanceDetail m id ≠ null)) := by
  refine ⟨?_, ?_, ?_⟩
  · intro email prev hne
    simp [loadBookings, hne]
  · intro d hd
    obtain ⟨h1, h2⟩ := (mem_detailedBookings m fetched d).mp hd
    exact ⟨h2, h1⟩
  · intro b hb
    rw [mem_detailedBookings, ← instanceDetails_ne_nil_iff]
    constructor
    · rintro ⟨_, h⟩
      exact h
    · intro h
      exact ⟨⟨b, hb, rfl⟩, h⟩

theorem newestFirst_total : IsTotal DetailedBooking newestFirst :=
  ⟨fun a b => Int.le_total (timestampOrZero b) (timestampOrZero a)⟩

theorem newestFirst_trans : IsTrans DetailedBooking newestFirst :=
  ⟨fun _ _ _ h1 h2 => Int.le_trans h2 h1⟩

/-- C23: the list that `loadBookings` produces is ordered newest first: of two bookings the
earlier in the list has a timestamp greater than or equal to the later one, pairwise and
hence for adjacent bookings, a missing timestamp counting as 0; so no booking with a
positive timestamp comes after one without timestamp. -/
theorem bookings_newest_first (m : IndexedModel) (fetched : List FetchedBooking) :
    (detailedBookings m fetched).Pairwise
      (fun a b => b.bookingTimestamp.getD 0 ≤ a.bookingTimestamp.getD 0) ∧
    (detailedBookings m fetched).Chain'
      (fun a b => b.bookingTimestamp.getD 0 ≤ a.bookingTimestamp.getD 0) ∧
    (detailedBookings m fetched).Pairwise
      (fun a b => a.bookingTimestamp = none → ∀ t, b.bookingTimestamp = some t → t ≤ 0) ∧
    (∀ (email : String) (prev : BookingsState), email ≠ "" →
      (loadBookings m false fetched (some email) prev).bookings = detailedBookings m fetched) := by
  have hs : (detailedBookings m fetched).Pairwise newestFirst :=
    @List.sorted_insertionSort DetailedBooking newestFirst _ newestFirst_total
      newestFirst_trans _
  refine ⟨hs, List.Pairwise.chain' hs, ?_, ?_⟩
  · refine hs.imp ?_
    intro a b hab ha t hb
    unfold newestFirst timestampOrZero at hab
    rw [ha, hb] at hab
    exact hab
  · intro email prev hne
    simp [loadBookings, hne]

/-- A concrete run of `detailedBookings`: the booking without resolvable instance is
dropped, and the booking without timestamp comes last. -/
theorem bookings_run_example :
    ∃ m, processFirebaseData
        ⟨some [obj [("description", str "Hatha"), ("time", str "09:00")]],
          some [obj [("classId", num 0), ("date", str "2099-01-01")]], none, none⟩
        ⟨2026, 10, 6⟩ = .ok m ∧
      (detailedBookings m
        [⟨some (str "-Na"), some [num 0], none⟩, ⟨some (str "-Nb"), some [num 5], some 900⟩,
          ⟨some (str "-Nc"), some [num 0], some 100⟩,
          ⟨some (str "-Nd"), some [num 0, num 5], some 700⟩]).map
        (fun d => (d.bookingId, d.instances.length)) =
        [(some (str "-Nd"), 1), (some (str "-Nc"), 1), (some (str "-Na"), 1)] :=
  ⟨_, processFirebaseData_eq _ _, by decide⟩

/-! ## The cart screen and the checkout summary -/

theorem detailedCartItems_eq (m : IndexedModel) (cartItems : List InstanceId) :
    detailedCartItems false m cartItems =
      (cartItems.filter (fun id => (resolvedClass m id).isSome)).map (cartItemDetail m) := by
  unfold detailedCartItems
  simp only [Bool.false_eq_true, if_false]
  rw [List.filter_map]
  congr 1
  apply List.filter_congr
  intro id _
  exact truthy_cartItemDetail m id

/-- C24: for a model returned by the pass, `detailedCartItems` is a total function of the
cart list; every item has as `instanceId` a cart member that is a key of
`classInstanceMap`; a cart member that is no key of `classInstanceMap` is the `instanceId`
of no item; and the items appear in cart order. -/
theorem cart_items_resolve_in_order (rawData : RawData) (today : JSDate) (m : IndexedModel)
    (hm : processFirebaseData rawData today = .ok m) (dataLoading : Bool)
    (cartItems : List InstanceId) :
    (∀ item ∈ detailedCartItems dataLoading m cartItems, ∃ id ∈ cartItems,
      getProp item "instanceId" = some (num id) ∧
      ∃ inst, mapGet m.classInstanceMap (some (num id)) = some inst) ∧
    (∀ id ∈ cartItems, mapGet m.classInstanceMap (some (num id)) = none →
      cartItemDetail m id = null ∧
      ∀ item ∈ detailedCartItems dataLoading m cartItems,
        getProp item "instanceId" ≠ some (num id)) ∧
    ((detailedCartItems dataLoading m cartItems).map
      (fun item => getProp item "instanceId")).Sublist
      (cartItems.map (fun id => some (num id))) := by
  have hitem : ∀ id : InstanceId, (resolvedClass m id).isSome = true →
      getProp (cartItemDetail m id) "instanceId" = some (num id) ∧
      ∃ inst, mapGet m.classInstanceMap (some (num id)) = some inst := by
    intro id h
    rcases cartItemDetail_cases m id with ⟨h1, _⟩ | ⟨inst, _, fields, hi, _, hd, hf, _⟩
    · rw [h1] at h
      cases h
    · refine ⟨?_, inst, hi⟩
      rw [hd]
      simp only [getProp]
      rw [hf]
      exact ((loaded_model_lookup rawData today m hm).1 _ _ hi).2
  have hnull : ∀ id : InstanceId, mapGet m.classInstanceMap (some (num id)) = none →
      cartItemDetail m id = null := by
    intro id hnone
    unfold cartItemDetail
    rw [hnone]
  cases dataLoading with
  | true =>
    refine ⟨by simp [detailedCartItems], ?_, by simp [detailedCartItems]⟩
    intro id _ hnone
    exact ⟨hnull id hnone, by simp [detailedCartItems]⟩
  | false =>
    rw [detailedCartItems_eq]
    have hall : ∀ item ∈ (cartItems.filter (fun id => (resolvedClass m id).isSome)).map
        (cartItemDetail m), ∃ id ∈ cartItems, getProp item "instanceId" = some (num id) ∧
          ∃ inst, mapGet m.classInstanceMap (some (num id)) = some inst := by
      intro item hitm
      obtain ⟨id, hid, rfl⟩ := List.mem_map.mp hitm
      obtain ⟨hid1, hid2⟩ := List.mem_filter.mp hid
      exact ⟨id, hid1, hitem id hid2⟩
    refine ⟨hall, ?_, ?_⟩
    · intro id _ hnone
      refine ⟨hnull id hnone, ?_⟩
      intro item hitm hinst
      obtain ⟨id2, _, h2, inst, hi⟩ := hall item hitm
      rw [h2] at hinst
      simp only [Option.some.injEq, Val.num.injEq] at hinst
      rw [hinst, hnone] at hi
      cases hi
    · rw [List.map_map]
      have hcongr : (cartItems.filter (fun id => (resolvedClass m id).isSome)).map
          ((fun item => getProp item "instanceId") ∘ cartItemDetail m) =
          (cartItems.filter (fun id => (resolvedClass m id).isSome)).map
            (fun id => some (num id)) := by
        apply List.map_congr_left
        intro id hid
        exact (hitem id (List.mem_filter.mp hid).2).1
      rw [hcongr]
      exact (List.filter_sublist _).map _

theorem cart_items_resolve_in_order_witness :
    ∃ m, processFirebaseData
        ⟨some [obj [("description", str "Hatha"), ("price", num 20)]],
          some [obj [("classId", num 0), ("date", str "2099-01-01")]], none, none⟩
        ⟨2026, 10, 6⟩ = .ok m ∧
      ((detailedCartItems false m [7, 0]).map (fun item => getProp item "instanceId")).Sublist
        (([7, 0] : List InstanceId).map (fun id => some (num id))) :=
  ⟨_, processFirebaseData_eq _ _,
    (cart_items_resolve_in_order _ ⟨2026, 10, 6⟩ _ (processFirebaseData_eq
      ⟨some [obj [("description", str "Hatha"), ("price", num 20)]],
        some [obj [("classId", num 0), ("date", str "2099-01-01")]], none, none⟩
      ⟨2026, 10, 6⟩) false [7, 0]).2.2⟩

theorem bookingSummary_step {ν : Type} (add : ν → JSVal → ν) (m : IndexedModel)
    (acc : Nat × ν) (instanceId : InstanceId) :
    (let inst := mapGet m.classInstanceMap (some (num instanceId))
     let parentClass : JSVal :=
       if truthyOpt inst then mapGet m.classMap (getPropOpt inst "classId") else some null
     if truthyOpt parentClass then (acc.1 + 1, add acc.2 (getPropOpt parentClass "price"))
     else acc) =
      match resolvedClass m instanceId with
      | some pc => (acc.1 + 1, add acc.2 (getProp pc "price"))
      | none => acc := by
  have hnull : truthy null = false := rfl
  unfold resolvedClass resolvedClassOf
  cases hi : mapGet m.classInstanceMap (some (num instanceId)) with
  | none => simp [truthyOpt, hnull]
  | some inst =>
    by_cases hti : truthy inst = true
    · cases hc : mapGet m.classMap (getProp inst "classId") with
      | none => simp [truthyOpt, hti, getPropOpt, hc]
      | some pc =>
        by_cases htc : truthy pc = true
        · simp [truthyOpt, hti, getPropOpt, hc, htc]
        · simp [truthyOpt, hti, getPropOpt, hc, htc]
    · simp [truthyOpt, hti, hnull]

theorem foldl_resolved {ν : Type} (add : ν → JSVal → ν) (m : IndexedModel)
    (f : Nat × ν → InstanceId → Nat × ν)
    (hf : ∀ acc id, f acc id =
      match resolvedClass m id with
      | some pc => (acc.1 + 1, add acc.2 (getProp pc "price"))
      | none => acc)
    (cartItems : List InstanceId) (acc : Nat × ν) :
    cartItems.foldl f acc =
      (acc.1 + (cartItems.filterMap (resolvedClass m)).length,
        ((cartItems.filterMap (resolvedClass m)).map (fun c => getProp c "price")).foldl add
          acc.2) := by
  induction cartItems generalizing acc with
  | nil => simp
  | cons id rest ih =>
    rw [List.foldl_cons, ih, hf]
    cases hr : resolvedClass m id with
    | none => simp [List.filterMap_cons, hr]
    | some pc =>
      simp only [List.filterMap_cons, hr, List.length_cons, List.map_cons, List.foldl_cons]
      congr 1
      omega

theorem bookingSummary_fold {ν : Type} (add : ν → JSVal → ν) (m : IndexedModel)
    (cartItems : List InstanceId) (acc : Nat × ν) :
    cartItems.foldl (fun acc instanceId =>
      let inst := mapGet m.classInstanceMap (some (num instanceId))
      let parentClass : JSVal :=
        if truthyOpt inst then mapGet m.classMap (getPropOpt inst "classId") else some null
      if truthyOpt parentClass then (acc.1 + 1, add acc.2 (getPropOpt parentClass "price"))
      else acc) acc =
      (acc.1 + (cartItems.filterMap (resolvedClass m)).length,
        ((cartItems.filterMap (resolvedClass m)).map (fun c => getProp c "price")).foldl add
          acc.2) :=
  foldl_resolved add m _ (fun acc id => bookingSummary_step add m acc id) cartItems acc

theorem getProp_obj (fields : Obj) (k : String) : getProp (obj fields) k = getField k fields :=
  rfl

theorem prices_of_detailedCartItems (m : IndexedModel) (cartItems : List InstanceId) :
    (detailedCartItems false m cartItems).map (fun item => getProp item "price") =
      (cartItems.filterMap (resolvedClass m)).map (fun c => getProp c "price") := by
  rw [detailedCartItems_eq]
  induction cartItems with
  | nil => rfl
  | cons id rest ih =>
    rcases cartItemDetail_cases m id with ⟨h1, _⟩ | ⟨_, pc, fields, _, h1, hd, _, hp⟩
    · simp only [List.filter_cons, h1, Option.isSome_none, Bool.false_eq_true, if_false,
        List.filterMap_cons]
      exact ih
    · simp only [List.filter_cons, h1, Option.isSome_some, if_true, List.filterMap_cons,
        List.map_cons, hd, getProp_obj, hp]
      rw [ih]

/-- C29: `bookingSummary` agrees with the cart screen for every cart list and every model:
its count is the length of `detailedCartItems` and its total is `totalPrice`, and both are
the number and the sum, in cart order, of the prices of the parent classes of the cart
members whose instance is found in `classInstanceMap` and whose class is found in
`classMap`. This holds for every reading of `+` and `0`. -/
theorem summary_agrees_with_cart {ν : Type} (add : ν → JSVal → ν) (zero : ν)
    (dataLoading : Bool) (m : IndexedModel) (cartItems : List InstanceId) :
    (bookingSummary add zero dataLoading m cartItems).1 =
      (detailedCartItems dataLoading m cartItems).length ∧
    (bookingSummary add zero dataLoading m cartItems).2 =
      totalPrice add zero (detailedCartItems dataLoading m cartItems) ∧
    (detailedCartItems false m cartItems).length =
      (cartItems.filterMap (resolvedClass m)).length ∧
    totalPrice add zero (detailedCartItems false m cartItems) =
      ((cartItems.filterMap (resolvedClass m)).map (fun c => getProp c "price")).foldl add
        zero := by
  have hlen : (detailedCartItems false m cartItems).length =
      (cartItems.filterMap (resolvedClass m)).length := by
    have := congrArg List.length (prices_of_detailedCartItems m cartItems)
    simpa using this
  have htot : totalPrice add zero (detailedCartItems false m cartItems) =
      ((cartItems.filterMap (resolvedClass m)).map (fun c => getProp c "price")).foldl add
        zero := by
    unfold totalPrice
    rw [← prices_of_detailedCartItems, List.foldl_map]
  refine ⟨?_, ?_, hlen, htot⟩
  · cases dataLoading with
    | true => simp [bookingSummary, detailedCartItems]
    | false =>
      cases cartItems with
      | nil => simp [bookingSummary, detailedCartItems]
      | cons id rest =>
        rw [hlen]
        unfold bookingSummary
        simp only [Bool.false_or, List.length_cons, Nat.succ_ne_zero, decide_False,
          Bool.false_eq_true, if_false]
        rw [bookingSummary_fold]
        simp
  · cases dataLoading with
    | true => simp [bookingSummary, detailedCartItems, totalPrice]
    | false =>
      cases cartItems with
      | nil => simp [bookingSummary, detailedCartItems, totalPrice]
      | cons id rest =>
        rw [htot]
        unfold bookingSummary
        simp only [Bool.false_or, List.length_cons, Nat.succ_ne_zero, decide_False,
          Bool.false_eq_true, if_false]
        rw [bookingSummary_fold]

/-- A concrete run with integer prices: the cart member 7 is no key of `classInstanceMap`,
so the cart screen shows one item and both screens count 1 and total 20. -/
theorem summary_run_example :
    ∃ m, processFirebaseData
        ⟨some [obj [("description", str "Hatha"), ("price", num 20)]],
          some [obj [("classId", num 0), ("date", str "2099-01-01")]], none, none⟩
        ⟨2026, 10, 6⟩ = .ok m ∧
      bookingSummary (fun (sum : Int) price =>
          match price with
          | some (num n) => sum + n
          | _ => sum) 0 false m [7, 0] = (1, 20) ∧
      (detailedCartItems false m [7, 0]).map (fun item => getProp item "instanceId") =
        [some (num 0)] :=
  ⟨_, processFirebaseData_eq _ _, by decide, by decide⟩

/-- C30: for a valid email and a non-empty cart, once the local store has resolved,
`handleBookingSubmit` passes validation and calls `set` with all cart identifiers. The
model is not consulted: this holds also when no cart member is a key of
`classInstanceMap`, in which case the cart screen lists no item. -/
theorem submit_checks_raw_cart_only (env : CheckoutEnv) (count : Nat) (email : String)
    (cartItems : List InstanceId) (hv : validateEmail email = true) (hne : cartItems ≠ [])
    (hst : env.storageRejects = none) :
    Effect.setIsLoading true ∈ (handleBookingSubmit env count email cartItems).effects ∧
    (handleBookingSubmit env count email cartItems).effects.filter Effect.isStoreSet =
      [.storeSet env.store.pushKey
        (obj [("userEmail", str email), ("bookedInstanceIds", arr (cartItems.map num)),
          ("bookingTimestamp", serverTimestamp)])] ∧
    (∀ (dataLoading : Bool) (m : IndexedModel),
      (∀ id ∈ cartItems, mapGet m.classInstanceMap (some (num id)) = none) →
        detailedCartItems dataLoading m cartItems = []) := by
  refine ⟨?_, ?_, ?_⟩
  · rw [handleBookingSubmit_submitted env count email cartItems hv hne hst]
    cases hrej : env.store.setRejects with
    | none => simp
    | some err => simp
  · rw [handleBookingSubmit_submitted env count email cartItems hv hne hst]
    cases hrej : env.store.setRejects with
    | none => simp [Effect.isStoreSet, bookingRecord]
    | some err => simp [Effect.isStoreSet, bookingRecord]
  · intro dataLoading m hnone
    cases dataLoading with
    | true => rfl
    | false =>
      rw [detailedCartItems_eq]
      have hfil : cartItems.filter (fun id => (resolvedClass m id).isSome) = [] := by
        rw [List.filter_eq_nil_iff]
        intro id hid
        simp [resolvedClass, resolvedClassOf, hnone id hid]
      rw [hfil]
      rfl

theorem submit_checks_raw_cart_only_witness :
    (handleBookingSubmit ⟨none, ⟨"-Nk1", none⟩, [], []⟩ 0 "asha@studio.example"
      [41, 42]).effects.filter Effect.isStoreSet =
      [.storeSet "-Nk1"
        (obj [("userEmail", str "asha@studio.example"),
          ("bookedInstanceIds", arr [num 41, num 42]),
          ("bookingTimestamp", serverTimestamp)])] ∧
    detailedCartItems false emptyModel [41, 42] = [] :=
  ⟨(submit_checks_raw_cart_only ⟨none, ⟨"-Nk1", none⟩, [], []⟩ 0 "asha@studio.example"
      [41, 42] (by decide) (by decide) rfl).2.1,
    (submit_checks_raw_cart_only ⟨none, ⟨"-Nk1", none⟩, [], []⟩ 0 "asha@studio.example"
      [41, 42] (by decide) (by decide) rfl).2.2 false emptyModel (by decide)⟩

/-! ## The provider -/

/-- C25, as stated, fails: after a model with one class has been loaded, a refresh whose
fetch is rejected leaves a state with no error reported and a model without any class. -/
theorem failed_refresh_replaces_model :
    ∃ prev, processFirebaseData
        ⟨some [obj [("description", str "Hatha")]], none, none, none⟩ ⟨2026, 10, 6⟩ = .ok prev ∧
      prev.processedClasses.length = 1 ∧ prev.classMap.length = 1 ∧
      (loadData (.error "network error") ⟨2026, 10, 6⟩ ⟨prev, false, none⟩).error = none ∧
      (loadData (.error "network error") ⟨2026, 10, 6⟩
        ⟨prev, false, none⟩).processedData.processedClasses = [] ∧
      (loadData (.error "network error") ⟨2026, 10, 6⟩
        ⟨prev, false, none⟩).processedData.classMap = [] :=
  ⟨_, processFirebaseData_eq _ _, by decide, by decide, by decide, by decide, by decide⟩

/-- C25, amended: when the fetch of a refresh fails, `fetchAllData` answers with the empty
bundle and the provider's state afterwards holds the empty model with no error reported,
whatever model was loaded before. The provider keeps the previous model, and then reports
an error, exactly when processing the fetched bundle throws; otherwise it reports no error
and holds the model processed from the fetched bundle. -/
theorem failed_fetch_loads_empty_model (today : JSDate) (prev : ProviderState) :
    (∀ reason : String,
      (loadData (.error reason) today prev).processedData = emptyModel ∧
      (loadData (.error reason) today prev).error = none ∧
      (loadData (.error reason) today prev).loading = false) ∧
    (∀ (answer : Except String Val) (err : JSError),
      processFetched (fetchAllData answer) today = .error err →
        (loadData answer today prev).processedData = prev.processedData ∧
        ∃ message, (loadData answer today prev).error = some message ∧ message ≠ "") ∧
    (∀ (answer : Except String Val) (processed : IndexedModel),
      processFetched (fetchAllData answer) today = .ok processed →
        (loadData answer today prev).processedData = processed ∧
        (loadData answer today prev).error = none) := by
  refine ⟨?_, ?_, ?_⟩
  · intro reason
    have h : processFetched (fetchAllData (.error reason)) today = .ok emptyModel := rfl
    unfold loadData
    rw [h]
    exact ⟨rfl, rfl, rfl⟩
  · intro answer err h
    unfold loadData
    rw [h]
    refine ⟨rfl, _, rfl, ?_⟩
    cases err
    decide
  · intro answer processed h
    unfold loadData
    rw [h]
    exact ⟨rfl, rfl⟩

/-- A concrete run of `loadData`: a fetched bundle whose `Classes` value is an object and
not an array makes the processing throw; the previous model stays and an error is
reported. -/
theorem loadData_run_example :
    (loadData (.ok (obj [("Classes", obj [("k1", obj [("description", str "Hatha")])])]))
      ⟨2026, 10, 6⟩ ⟨emptyModel, false, none⟩).error = some "undefined is not a function" ∧
    (loadData (.ok null) ⟨2026, 10, 6⟩ ⟨emptyModel, false, none⟩).error = none := by
  decide

end YogaCustomerApp
